import Mathlib

/-!
# Boundary reflection and monostatic reverberation (USML waveq3d)

A shallow embedding of `reflection_model.cc`, `eigenverb_monostatic.cc` and of
`find_pairs` and `remove_sensor` of `sensor_pair_manager.cc`.

Modelling conventions
* C++ `double` is idealised as exact arithmetic in an ordered field (the
  rationals where definitions are evaluated, the reals where a square root has
  to be exact); rounding is outside the model.  Where the code computes a
  value that has no exact counterpart (the quotient 0.0/0.0 of the shallow water
  guard, `asin` outside [-1, 1]) the value is `double.nan`, with the C++ rules
  for NaN: it propagates through arithmetic and every comparison with it is
  false.  `collision_location` divides by the time step, and the reflected
  vector is divided by its length times the sound speed: the values are those
  of the code where the divisor is different from zero.
* C++ `unsigned` is `Nat`, reduced modulo `2^32` where wrap-around matters.
* `ublas` matrices and vectors are total functions of their indices.
* `std::set` is a `Finset`, walked in ascending order; a `std::map` handed in as
  an argument is the list of its entries.
* Collaborators whose code is not part of the embedded files (the ocean boundary
  models, the `ode_integ` integrator, `wave_front::update`, the C math library,
  `create_eigenverb`, `compute_contribution`) are parameters.
* Calls made to collaborators that the properties talk about are recorded in
  call logs returned next to the new state.
-/

namespace usml

variable {α : Type} [LinearOrderedField α]

/-! ## Data model -/

/-- Spherical earth vector with components (rho, theta, phi): the scalar
    `wvector1` of the source; `wposition1` is the same triple read as a position. -/
structure wvector1 (α : Type) where
  rho : α
  theta : α
  phi : α
deriving DecidableEq

/-- Position in spherical earth coordinates. -/
abbrev wposition1 (α : Type) := wvector1 α

/-- A C++ `double` where the code can leave the exact numbers: an exact value,
    or NaN. -/
inductive double (α : Type) where
  | val (x : α)
  | nan
deriving DecidableEq

instance : Coe α (double α) := ⟨double.val⟩

instance (n : Nat) [OfNat α n] : OfNat (double α) n := ⟨double.val (OfNat.ofNat n)⟩

/-- Sum of two doubles; NaN when either is NaN. -/
def double.add : double α → double α → double α
  | .val x, .val y => .val (x + y)
  | _, _ => .nan

/-- Product of two doubles; NaN when either is NaN. -/
def double.mul : double α → double α → double α
  | .val x, .val y => .val (x * y)
  | _, _ => .nan

/-- Negation of a double. -/
def double.neg : double α → double α
  | .val x => .val (-x)
  | .nan => .nan

/-- Quotient of two doubles: NaN when either is NaN and for 0.0/0.0.  The
    embedded code takes a quotient of doubles in two places: the shallow water
    guard, whose divisor `theta^2 + phi^2` is zero only when both dividends are
    zero, and `time_water`, whose divisor has failed the test `>= 0.0`; so a
    non-zero number is never divided by zero here. -/
def double.div : double α → double α → double α
  | .val x, .val y => if y = 0 then .nan else .val (x / y)
  | _, _ => .nan

instance : Add (double α) := ⟨double.add⟩

instance : Mul (double α) := ⟨double.mul⟩

instance : Neg (double α) := ⟨double.neg⟩

instance : Div (double α) := ⟨double.div⟩

/-- The comparison `a >= b` of C++: false when either side is NaN. -/
def double.ge : double α → double α → Bool
  | .val x, .val y => decide (x ≥ y)
  | _, _ => false

/-- The comparison `a < b` of C++: false when either side is NaN. -/
def double.lt : double α → double α → Bool
  | .val x, .val y => decide (x < y)
  | _, _ => false

/-- The comparison `a > b` of C++: false when either side is NaN. -/
def double.gt : double α → double α → Bool
  | .val x, .val y => decide (x > y)
  | _, _ => false

/-- The comparison `a <= b` of C++: false when either side is NaN. -/
def double.le : double α → double α → Bool
  | .val x, .val y => decide (x ≤ y)
  | _, _ => false

/-- Everything one ray of the grid owns in one snapshot. -/
structure wave_cell (α : Type) where
  position : wposition1 α
  pos_gradient : wvector1 α
  ndirection : wvector1 α
  ndir_gradient : wvector1 α
  sound_gradient : wvector1 α
  sound_speed : α
  distance : α
  attenuation : Nat → α
  phase : Nat → α

/-- One snapshot of the ray grid, indexed by (de, az). -/
abbrev wave_front (α : Type) := Nat → Nat → wave_cell α

/-- Overwrite one cell of a snapshot. -/
def wave_front.set (wf : wave_front α) (de az : Nat) (c : wave_cell α) : wave_front α :=
  fun d a => if d = de ∧ a = az then c else wf d a

/-- The part of `wave_queue` that the reflection model reads and writes:
    the four history snapshots, the time step, the current time and the
    frequency axis. -/
structure wave_queue (α : Type) where
  past : wave_front α
  prev : wave_front α
  curr : wave_front α
  next : wave_front α
  time_step : α
  time : α
  frequencies : List α

/-- Interface of `boundary_model`: `height` gives the boundary radius and the
    normal at a position, `reflect_loss` gives per-frequency amplitude and phase
    for a position, the frequency axis and a grazing angle; the grazing angle
    is a double because `bottom_reflection` passes the result of `asin`. -/
structure boundary_model (α : Type) where
  height : wposition1 α → α × wvector1 α
  reflect_loss : wposition1 α → List α → double α → (Nat → α) × (Nat → α)

/-- The functions of the C math library used by the reflection model; `asin`
    gives the values of the arcsine on its domain [-1, 1]. -/
structure libm (α : Type) where
  sqrt : α → α
  asin : α → α
  atan2 : α → α → α

/-- The call `asin(x)` of the C math library: the arcsine on [-1, 1], NaN for
    an argument outside of it or a NaN argument. -/
def libm.c_asin (math : libm α) : double α → double α
  | .val x => if -1 ≤ x ∧ x ≤ 1 then .val (math.asin x) else .nan
  | .nan => .nan

/-- The constant `M_PI` of the C math library, with the digits of its definition. -/
def M_PI : α := 314159265358979323846 / 100000000000000000000

/-- Interface of `ode_integ` and of `wave_front`, whose code is outside the
    embedded files.  Every function returns the wavefront it writes; the
    arguments are in the order of the source. `fresh` is a newly constructed
    1x1 wavefront. -/
structure ode_integ (α : Type) where
  fresh : wave_front α
  update : wave_front α → wave_front α
  rk1_pos : α → wave_front α → wave_front α → wave_front α
  rk1_ndir : α → wave_front α → wave_front α → wave_front α
  rk2_pos : α → wave_front α → wave_front α → wave_front α → wave_front α
  rk2_ndir : α → wave_front α → wave_front α → wave_front α → wave_front α
  rk3_pos : α → wave_front α → wave_front α → wave_front α → wave_front α → Bool → wave_front α
  rk3_ndir : α → wave_front α → wave_front α → wave_front α → wave_front α → Bool → wave_front α
  ab3_pos : α → wave_front α → wave_front α → wave_front α → wave_front α → wave_front α
  ab3_ndir : α → wave_front α → wave_front α → wave_front α → wave_front α → wave_front α

/-- The members of `reflection_model` other than the wave itself, with the
    constants it takes from headers (`wposition::earth_radius`, `TOO_SHALLOW`)
    and whether a reverberation listener is installed. -/
structure reflection_model (α : Type) where
  bottom : boundary_model α
  surface : boundary_model α
  math : libm α
  integ : ode_integ α
  earth_radius : α
  TOO_SHALLOW : α
  bottom_reverb : Bool
  surface_reverb : Bool

/-- Arguments of one call of `reflection_reinit`. -/
structure reinit_call (α : Type) where
  de : Nat
  az : Nat
  time_water : α
  position : wposition1 α
  ndirection : wvector1 α
  speed : α

/-- Arguments of one call of a reverberation listener (`collision`). -/
structure collision_call (α : Type) where
  de : Nat
  az : Nat
  time : α
  position : wposition1 α
  ndirection : wvector1 α
  speed : α

/-- Arguments of one call of `reflect_loss` on a boundary: the position and
    the grazing angle. -/
structure loss_call (α : Type) where
  position : wposition1 α
  grazing : double α

/-- What a reflection routine leaves behind: its return value, the wave, and
    the calls it made to `reflection_reinit`, to the reverberation listener
    and to the boundary's `reflect_loss`.  `not_a_number` is set when
    `bottom_reflection` went through its second half with a NaN `time_water`:
    every value it then computed, passed on and stored in cell (de, az) is NaN,
    which the wave and the call logs (exact values) cannot hold; they are then
    left as before the call and only `returned` describes the code. -/
structure reflection_result (α : Type) where
  returned : Bool
  wave : wave_queue α
  reinit : List (reinit_call α)
  reverb : List (collision_call α)
  loss : List (loss_call α) := []
  not_a_number : Bool := false

/-! ## `reflection_model::collision_location` -/

/-- Second order Taylor series of position, direction and sound speed around
    the current snapshot; returns (position, ndirection, speed). -/
def collision_location (w : wave_queue α) (de az : Nat) (time_water : α) :
    wposition1 α × wvector1 α × α :=
  let time1 := 2 * w.time_step
  let time2 := w.time_step * w.time_step
  let dtime2 := time_water * time_water
  -- sound speed
  let drho := ((w.next de az).sound_speed - (w.prev de az).sound_speed) / time1
  let d2rho := ((w.next de az).sound_speed + (w.prev de az).sound_speed
      - 2 * (w.curr de az).sound_speed) / time2
  let speed := (w.curr de az).sound_speed + drho * time_water + (1/2) * d2rho * dtime2
  -- position
  let drho := ((w.next de az).position.rho - (w.prev de az).position.rho) / time1
  let dtheta := ((w.next de az).position.theta - (w.prev de az).position.theta) / time1
  let dphi := ((w.next de az).position.phi - (w.prev de az).position.phi) / time1
  let d2rho := ((w.next de az).position.rho + (w.prev de az).position.rho
      - 2 * (w.curr de az).position.rho) / time2
  let d2theta := ((w.next de az).position.theta + (w.prev de az).position.theta
      - 2 * (w.curr de az).position.theta) / time2
  let d2phi := ((w.next de az).position.phi + (w.prev de az).position.phi
      - 2 * (w.curr de az).position.phi) / time2
  let position : wposition1 α :=
    { rho := (w.curr de az).position.rho + drho * time_water + (1/2) * d2rho * dtime2
      theta := (w.curr de az).position.theta + dtheta * time_water + (1/2) * d2theta * dtime2
      phi := (w.curr de az).position.phi + dphi * time_water + (1/2) * d2phi * dtime2 }
  -- ndirection
  let drho := ((w.next de az).ndirection.rho - (w.prev de az).ndirection.rho) / time1
  let dtheta := ((w.next de az).ndirection.theta - (w.prev de az).ndirection.theta) / time1
  let dphi := ((w.next de az).ndirection.phi - (w.prev de az).ndirection.phi) / time1
  let d2rho := ((w.next de az).ndirection.rho + (w.prev de az).ndirection.rho
      - 2 * (w.curr de az).ndirection.rho) / time2
  let d2theta := ((w.next de az).ndirection.theta + (w.prev de az).ndirection.theta
      - 2 * (w.curr de az).ndirection.theta) / time2
  let d2phi := ((w.next de az).ndirection.phi + (w.prev de az).ndirection.phi
      - 2 * (w.curr de az).ndirection.phi) / time2
  let ndirection : wvector1 α :=
    { rho := (w.curr de az).ndirection.rho + drho * time_water + (1/2) * d2rho * dtime2
      theta := (w.curr de az).ndirection.theta + dtheta * time_water + (1/2) * d2theta * dtime2
      phi := (w.curr de az).ndirection.phi + dphi * time_water + (1/2) * d2phi * dtime2 }
  (position, ndirection, speed)

/-- The value the specification gives for one refined quantity:
    `curr + first * time_water + 1/2 * second * time_water^2` with the central
    difference quotients as derivatives. -/
def taylor2 (prev curr next dt time_water : α) : α :=
  curr + ((next - prev) / (2 * dt)) * time_water
    + (1/2) * ((next + prev - 2 * curr) / dt ^ 2) * time_water ^ 2

/-! ## `reflection_model::reflection_copy` and `reflection_reinit` -/

/-- Copy the derived fields of the single cell (0,0) of `results` into cell
    (de, az) of `element`. -/
def reflection_copy (element : wave_front α) (de az : Nat) (results : wave_front α) :
    wave_front α :=
  element.set de az
    { element de az with
      position := (results 0 0).position
      pos_gradient := (results 0 0).pos_gradient
      ndirection := (results 0 0).ndirection
      ndir_gradient := (results 0 0).ndir_gradient
      sound_gradient := (results 0 0).sound_gradient
      sound_speed := (results 0 0).sound_speed
      distance := (results 0 0).distance }

/-- Rebuild the four history entries of one ray after a reflection.  The
    temporaries `past`, `prev`, `curr`, `next` are 1x1 wavefronts; `rk3_pos`
    and `rk3_ndir` are called with the flag `false` where their output aliases
    one of their inputs and with their default flag elsewhere. -/
def reflection_reinit (m : reflection_model α) (w : wave_queue α) (de az : Nat)
    (time_water : α) (position : wposition1 α) (ndirection : wvector1 α) (_speed : α) :
    wave_queue α :=
  let ig := m.integ
  let past := ig.fresh
  let prev := ig.fresh
  let curr := ig.fresh
  let next := ig.fresh
  -- initialize current entry with reflected position and direction
  let curr := curr.set 0 0 { curr 0 0 with position := position, ndirection := ndirection }
  let curr := ig.update curr
  -- Runge-Kutta to initialize current entry "time_water" seconds in the past
  let next := ig.rk1_pos (-time_water) curr next
  let next := ig.rk1_ndir (-time_water) curr next
  let next := ig.update next
  let past := ig.rk2_pos (-time_water) curr next past
  let past := ig.rk2_ndir (-time_water) curr next past
  let past := ig.update past
  let curr := ig.rk3_pos (-time_water) curr next past curr false
  let curr := ig.rk3_ndir (-time_water) curr next past curr false
  let curr := ig.update curr
  let w := { w with curr := reflection_copy w.curr de az curr }
  -- Runge-Kutta to estimate prev wavefront from curr entry
  let time_step := w.time_step
  let next := ig.rk1_pos (-time_step) curr next
  let next := ig.rk1_ndir (-time_step) curr next
  let next := ig.update next
  let past := ig.rk2_pos (-time_step) curr next past
  let past := ig.rk2_ndir (-time_step) curr next past
  let past := ig.update past
  let prev := ig.rk3_pos (-time_step) curr next past prev true
  let prev := ig.rk3_ndir (-time_step) curr next past prev true
  let prev := ig.update prev
  let w := { w with prev := reflection_copy w.prev de az prev }
  -- Runge-Kutta to estimate past wavefront from prev entry
  let next := ig.rk1_pos (-time_step) prev next
  let next := ig.rk1_ndir (-time_step) prev next
  let next := ig.update next
  let past := ig.rk2_pos (-time_step) prev next past
  let past := ig.rk2_ndir (-time_step) prev next past
  let past := ig.update past
  let past := ig.rk3_pos (-time_step) prev next past past false
  let past := ig.rk3_ndir (-time_step) prev next past past false
  let past := ig.update past
  let w := { w with past := reflection_copy w.past de az past }
  -- Adams-Bashforth to estimate next wavefront from past, prev, and curr entries
  let next := ig.ab3_pos time_step past prev curr next
  let next := ig.ab3_ndir time_step past prev curr next
  let next := ig.update next
  { w with next := reflection_copy w.next de az next }

/-! ## Reflection loss accumulation -/

/-- The loop of `bottom_reflection` over the frequency index:
    `attenuation(f) += amplitude(f)` and `phase(f) += phase(f)`. -/
def add_bottom_loss (n : Nat) (amplitude phase : Nat → α) (cell : wave_cell α) : wave_cell α :=
  (List.range n).foldl
    (fun cell f =>
      { cell with
        attenuation := Function.update cell.attenuation f (cell.attenuation f + amplitude f)
        phase := Function.update cell.phase f (cell.phase f + phase f) })
    cell

/-- The loop of `surface_reflection` over the frequency index:
    `attenuation(f) += amplitude(f)` and `phase(f) -= M_PI`. -/
def add_surface_loss (n : Nat) (amplitude : Nat → α) (cell : wave_cell α) : wave_cell α :=
  (List.range n).foldl
    (fun cell f =>
      { cell with
        attenuation := Function.update cell.attenuation f (cell.attenuation f + amplitude f)
        phase := Function.update cell.phase f (cell.phase f - M_PI) })
    cell

/-! ## `reflection_model::bottom_reflection` -/

/-- The shallow water guard of `bottom_reflection`: the normal used by the
    first near-miss test and the `time_water` estimate.  Its components are
    doubles: for a normal with `theta` = `phi` = 0 the guard divides 0.0 by 0.0. -/
def shallow_guard (m : reflection_model α) (bottom_rho : α) (bottom_normal : wvector1 α) :
    wvector1 (double α) :=
  if (m.earth_radius - bottom_rho) < m.TOO_SHALLOW then
    let N : double α := double.val (bottom_normal.theta * bottom_normal.theta
      + bottom_normal.phi * bottom_normal.phi)
    { rho := double.val 0, theta := double.val bottom_normal.theta / N
      phi := double.val bottom_normal.phi / N }
  else
    { rho := double.val bottom_normal.rho, theta := double.val bottom_normal.theta
      phi := double.val bottom_normal.phi }

/-- First half of `bottom_reflection`: `none` for the first near miss,
    otherwise the fraction of the time step needed to strike the bottom, a
    double that is NaN when the guarded normal is. -/
def bottom_time_water (m : reflection_model α) (w : wave_queue α) (de az : Nat) :
    Option (double α) :=
  let position := (w.curr de az).position
  let ndirection := (w.curr de az).ndirection
  let c := (w.curr de az).sound_speed
  let c2 := c * c
  let bottom_rho := (m.bottom.height position).1
  let bottom_normal := (m.bottom.height position).2
  let height_water := position.rho - bottom_rho
  let bottom_normal := shallow_guard m bottom_rho bottom_normal
  if height_water > 0 then
    let ndirection : wvector1 α :=
      { rho := c2 * ndirection.rho, theta := c2 * ndirection.theta, phi := c2 * ndirection.phi }
    let dot_full : double α := bottom_normal.rho * double.val ndirection.rho
      + bottom_normal.theta * double.val ndirection.theta
      + bottom_normal.phi * double.val ndirection.phi
    if dot_full.ge (double.val 0) then none
    else
      let dot_water : double α := double.val (-height_water) * bottom_normal.rho
      let time_water := dot_water / dot_full
      let time_water := if time_water.lt (double.val 0) then double.val 0 else time_water
      let time_water := if time_water.gt (double.val w.time_step) then double.val w.time_step
        else time_water
      some time_water
  else some (double.val 0)

/-- Reflect a single acoustic ray from the ocean bottom.  With a NaN
    `time_water` the position, direction and speed that `collision_location`
    returns are NaN, so is `dot_full` whatever normal the boundary answers, the
    test `dot_full >= 0.0` is false, and the routine goes on to `asin`, the
    listener, `reflect_loss` and `reflection_reinit` with NaN and returns true. -/
def bottom_reflection (m : reflection_model α) (w : wave_queue α) (de az : Nat) (_depth : α) :
    reflection_result α :=
  match bottom_time_water m w de az with
  | none => { returned := false, wave := w, reinit := [], reverb := [] }
  | some double.nan =>
    { returned := true, wave := w, reinit := [], reverb := [], not_a_number := true }
  | some (double.val time_water) =>
    let position := (collision_location w de az time_water).1
    let ndirection := (collision_location w de az time_water).2.1
    let c := (collision_location w de az time_water).2.2
    let bottom_normal := (m.bottom.height position).2
    let c2 := c * c
    let ndirection : wvector1 α :=
      { rho := c2 * ndirection.rho, theta := c2 * ndirection.theta, phi := c2 * ndirection.phi }
    let dot_full := bottom_normal.rho * ndirection.rho
      + bottom_normal.theta * ndirection.theta
      + bottom_normal.phi * ndirection.phi
    if dot_full ≥ 0 then { returned := false, wave := w, reinit := [], reverb := [] }
    else
      let grazing := m.math.c_asin (double.val (-dot_full / c))
      let reverb : List (collision_call α) :=
        if m.bottom_reverb then [⟨de, az, w.time + time_water, position, ndirection, c⟩] else []
      -- compute reflection loss
      let loss : List (loss_call α) := [⟨position, grazing⟩]
      let amplitude := (m.bottom.reflect_loss position w.frequencies grazing).1
      let phase := (m.bottom.reflect_loss position w.frequencies grazing).2
      let cell := add_bottom_loss w.frequencies.length amplitude phase (w.next de az)
      let w1 := { w with next := w.next.set de az cell }
      -- change direction of the ray ( R = I - 2 dot(n,I) n )
      let dot_full := dot_full * 2
      let ndirection : wvector1 α :=
        { rho := ndirection.rho - dot_full * bottom_normal.rho
          theta := ndirection.theta - dot_full * bottom_normal.theta
          phi := ndirection.phi - dot_full * bottom_normal.phi }
      let N := m.math.sqrt (ndirection.rho * ndirection.rho
        + ndirection.theta * ndirection.theta
        + ndirection.phi * ndirection.phi) * c
      let ndirection : wvector1 α :=
        { rho := ndirection.rho / N, theta := ndirection.theta / N, phi := ndirection.phi / N }
      { returned := true
        wave := reflection_reinit m w1 de az time_water position ndirection c
        reinit := [⟨de, az, time_water, position, ndirection, c⟩]
        reverb := reverb
        loss := loss }

/-! ## `reflection_model::surface_reflection` -/

/-- Altitude of a position: radial coordinate above the earth radius. -/
def altitude (m : reflection_model α) (p : wposition1 α) : α := p.rho - m.earth_radius

/-- Fraction of the time step needed to strike the surface. -/
def surface_time_water (m : reflection_model α) (w : wave_queue α) (de az : Nat) : α :=
  let c := (w.curr de az).sound_speed
  let d := c * c * (w.curr de az).ndirection.rho
  if d = 0 then 0 else -(altitude m (w.curr de az).position) / d

/-- Grazing angle that `surface_reflection` computes from the current direction. -/
def surface_grazing (m : reflection_model α) (w : wave_queue α) (de az : Nat) : α :=
  m.math.atan2 (w.curr de az).ndirection.rho
    (m.math.sqrt ((w.curr de az).ndirection.theta * (w.curr de az).ndirection.theta
      + (w.curr de az).ndirection.phi * (w.curr de az).ndirection.phi))

/-- Reflect a single acoustic ray from the ocean surface. -/
def surface_reflection (m : reflection_model α) (w : wave_queue α) (de az : Nat) :
    reflection_result α :=
  let time_water := surface_time_water m w de az
  let position := (collision_location w de az time_water).1
  let ndirection := (collision_location w de az time_water).2.1
  let c := (collision_location w de az time_water).2.2
  let grazing := surface_grazing m w de az
  if grazing ≤ 0 then { returned := false, wave := w, reinit := [], reverb := [] }
  else
    let reverb : List (collision_call α) :=
      if m.surface_reverb then [⟨de, az, w.time + time_water, position, ndirection, c⟩] else []
    -- compute reflection loss
    let loss : List (loss_call α) := [⟨position, double.val grazing⟩]
    let amplitude := (m.surface.reflect_loss position w.frequencies (double.val grazing)).1
    let cell := add_surface_loss w.frequencies.length amplitude (w.next de az)
    let w1 := { w with next := w.next.set de az cell }
    -- change direction of the ray ( Rz = -Iz )
    let ndirection : wvector1 α := { ndirection with rho := -ndirection.rho }
    { returned := true
      wave := reflection_reinit m w1 de az time_water position ndirection c
      reinit := [⟨de, az, time_water, position, ndirection, c⟩]
      reverb := reverb
      loss := loss }

/-! ## `eigenverb_monostatic` -/

/-- Modelled from the spec: the record `eigenverb`, declared in a header that is
    not among the embedded files.  One collision: originating grid indices,
    time, grazing angle, propagation speed, position, direction and
    per-frequency boundary loss. -/
structure eigenverb where
  de : Nat
  az : Nat
  time : ℚ
  grazing : ℚ
  speed : ℚ
  position : wposition1 ℚ
  ndirection : wvector1 ℚ
  boundary_loss : List ℚ
deriving DecidableEq

/-- Arguments shared by `notifyUpperCollision`, `notifyLowerCollision` and
    `create_eigenverb`, in the order of the source. -/
structure collision_info where
  de : Nat
  az : Nat
  time : ℚ
  dt : ℚ
  grazing : ℚ
  speed : ℚ
  frequencies : List ℚ
  position : wposition1 ℚ
  ndirection : wvector1 ℚ
  boundary_loss : List ℚ

/-- Data members of `eigenverb_monostatic`.  `n` is the member `_n` read by the
    volume passes; `upper` and `lower` hold one collection per volume layer. -/
structure eigenverb_monostatic where
  pulse : ℚ
  max_index : Nat
  max_time : ℚ
  n : Nat
  source_origin : Nat
  surface : List eigenverb
  bottom : List eigenverb
  upper : List (List eigenverb)
  lower : List (List eigenverb)
  reverberation_curve : List ℚ

/-- What `eigenverb_monostatic` takes from its base class and headers: the
    constant `SOURCE_ID` and the routine `create_eigenverb`. -/
structure eigenverb_model where
  SOURCE_ID : Nat
  create_eigenverb : collision_info → eigenverb

/-- The exception of `std::vector::at`. -/
inductive exception where
  | out_of_range
deriving DecidableEq

/-- Subtraction of C++ `unsigned` values. -/
def usub (a b : Nat) : Nat := (a % 2^32 + (2^32 - b % 2^32)) % 2^32

/-- Layer index computed by the default branch: `ID -= _source_origin - 1`. -/
def layer_index (s : eigenverb_monostatic) (ID : Nat) : Nat :=
  usub ID (usub s.source_origin 1)

/-- Append `verb` to collection `k` of a table of collections (`table.at(k).push_back(verb)`). -/
def push_at (table : List (List eigenverb)) (k : Nat) (verb : eigenverb) :
    Except exception (List (List eigenverb)) :=
  if h : k < table.length then .ok (table.set k (table[k] ++ [verb]))
  else .error exception.out_of_range

/-- Place an eigenverb into the class of "upper" bins. -/
def notifyUpperCollision (em : eigenverb_model) (s : eigenverb_monostatic)
    (c : collision_info) (ID : Nat) : Except exception eigenverb_monostatic :=
  let verb := em.create_eigenverb c
  if ID = em.SOURCE_ID then .ok { s with surface := s.surface ++ [verb] }
  else
    let ID := layer_index s ID
    match push_at s.upper ID verb with
    | .ok upper => .ok { s with upper := upper }
    | .error e => .error e

/-- Place an eigenverb into the class of "lower" bins. -/
def notifyLowerCollision (em : eigenverb_model) (s : eigenverb_monostatic)
    (c : collision_info) (ID : Nat) : Except exception eigenverb_monostatic :=
  let verb := em.create_eigenverb c
  if ID = em.SOURCE_ID then .ok { s with bottom := s.bottom ++ [verb] }
  else
    let ID := layer_index s ID
    match push_at s.lower ID verb with
    | .ok lower => .ok { s with lower := lower }
    | .error e => .error e

/-- Convolution of a set of eigenverbs with itself.  `compute_contribution`
    belongs to the base class; it acts on a state `σ` and receives the
    boundary `β` handed to the convolution. -/
def convolve_eigenverbs {σ β : Type} (compute_contribution : eigenverb → eigenverb → β → σ → σ)
    (max_time : ℚ) (set : List eigenverb) (boundary : β) (s : σ) : σ :=
  set.foldl
    (fun s u =>
      set.foldl
        (fun s v =>
          let travel_time := u.time + v.time
          if max_time ≤ travel_time then s else compute_contribution u v boundary s)
        s)
    s

/-- The sequence of calls of `compute_contribution` made by one run of
    `convolve_eigenverbs`: the convolution run with a contribution that only
    records its arguments. -/
def convolve_calls (max_time : ℚ) (set : List eigenverb) : List (eigenverb × eigenverb) :=
  convolve_eigenverbs (fun u v (_ : Unit) log => log ++ [(u, v)]) max_time set () []

/-- The floor value `1e-20` that the constructor writes into every bin. -/
def curve_floor : ℚ := 1 / 10 ^ 20

/-- Constructor of `eigenverb_monostatic` for an ocean with `num_layers` volume
    layers and a wave with identity `wave_ID`.  The constructor stores the
    number of layers in a local variable named `_n`, so the member `_n` keeps
    the indeterminate value `member_n` it had before the call. -/
def eigenverb_monostatic.construct (num_layers wave_ID : Nat) (pulse : ℚ) (num_bins : Nat)
    (max_time : ℚ) (member_n : Nat) : eigenverb_monostatic :=
  let _n := num_layers
  { pulse := pulse
    max_index := usub num_bins 1
    max_time := max_time
    n := member_n
    source_origin := wave_ID
    surface := []
    bottom := []
    upper := List.replicate _n []
    lower := List.replicate _n []
    reverberation_curve := (List.replicate num_bins (0 : ℚ)).map (fun _ => curve_floor) }

/-- The boundary models an accumulator points to: `_bottom_boundary`,
    `_surface_boundary` and the layers of `_volume_boundary`. -/
structure reverb_boundaries (β : Type) where
  bottom_boundary : β
  surface_boundary : β
  getLayer : Nat → β

/-- The loop shared by the two volume passes: walk the table of collections
    with the counter `layer`, as long as `layer <= _n`, and convolve each
    collection with the boundary `getLayer(layer)`.  The convolution is a
    parameter so that its calls can be recorded. -/
def volume_pass {σ β : Type} (convolve : List eigenverb → β → σ → σ) (getLayer : Nat → β)
    (n : Nat) : List (List eigenverb) → Nat → σ → σ
  | [], _, acc => acc
  | k :: rest, layer, acc =>
    if layer ≤ n then
      volume_pass convolve getLayer n rest (layer + 1) (convolve k (getLayer layer) acc)
    else acc

/-- Energy contributions from the bottom interactions. -/
def compute_bottom_energy {σ β : Type} (compute_contribution : eigenverb → eigenverb → β → σ → σ)
    (b : reverb_boundaries β) (s : eigenverb_monostatic) (acc : σ) : σ :=
  convolve_eigenverbs compute_contribution s.max_time s.bottom b.bottom_boundary acc

/-- Energy contributions from the surface interactions. -/
def compute_surface_energy {σ β : Type} (compute_contribution : eigenverb → eigenverb → β → σ → σ)
    (b : reverb_boundaries β) (s : eigenverb_monostatic) (acc : σ) : σ :=
  convolve_eigenverbs compute_contribution s.max_time s.surface b.surface_boundary acc

/-- Upper collision contributions of the volume layers. -/
def compute_upper_volume_energy {σ β : Type}
    (compute_contribution : eigenverb → eigenverb → β → σ → σ)
    (b : reverb_boundaries β) (s : eigenverb_monostatic) (acc : σ) : σ :=
  volume_pass (convolve_eigenverbs compute_contribution s.max_time) b.getLayer s.n s.upper 0 acc

/-- Lower collision contributions of the volume layers; the loop of the source
    runs over `_upper`. -/
def compute_lower_volume_energy {σ β : Type}
    (compute_contribution : eigenverb → eigenverb → β → σ → σ)
    (b : reverb_boundaries β) (s : eigenverb_monostatic) (acc : σ) : σ :=
  volume_pass (convolve_eigenverbs compute_contribution s.max_time) b.getLayer s.n s.upper 0 acc

/-- The calls of `convolve_eigenverbs` made by `compute_upper_volume_energy`:
    the pass run with a convolution that only records the layer requested from
    `getLayer` and the collection it is handed. -/
def upper_volume_calls (s : eigenverb_monostatic) : List (Nat × List eigenverb) :=
  volume_pass (fun set layer log => log ++ [(layer, set)]) (fun layer => layer) s.n s.upper 0 []

/-- Modelled from the spec: the effect of `compute_contribution`, whose code is
    not among the embedded files, on the reverberation curve: the addition of
    the energy `energy` to the bin with index `bin`. -/
def add_energy (bin : Nat) (energy : ℚ) (curve : List ℚ) : List ℚ :=
  curve.modify (fun x => x + energy) bin

/-- Modelled from the spec: `compute_contribution` as the addition of the energy
    `energy u v boundary` of the pair to the bin `bin u v boundary` of the curve. -/
def bin_contribution {β : Type} (energy : eigenverb → eigenverb → β → ℚ)
    (bin : eigenverb → eigenverb → β → Nat) : eigenverb → eigenverb → β → List ℚ → List ℚ :=
  fun u v boundary curve => add_energy (bin u v boundary) (energy u v boundary) curve

/-- The curve `b` has the bins of the curve `a`, each holding at least as much
    energy. -/
def bins_le (a b : List ℚ) : Prop :=
  a.length = b.length ∧ ∀ i (h1 : i < a.length) (h2 : i < b.length), a[i] ≤ b[i]

/-! ## Quantities of the reinitialiser -/

/-- The fields of a cell that `reflection_copy` transfers. -/
def copied_fields (c : wave_cell α) :
    wposition1 α × wvector1 α × wvector1 α × wvector1 α × wvector1 α × α × α :=
  (c.position, c.pos_gradient, c.ndirection, c.ndir_gradient, c.sound_gradient,
    c.sound_speed, c.distance)

/-- A 1x1 wavefront holding one cell. -/
def cell_front (c : wave_cell α) : wave_front α := fun _ _ => c

/-- The steady state step at the end of `reflection_reinit`: `ab3_pos`, then
    `ab3_ndir`, then `update`, written into the wavefront `next`. -/
def ab3_step (ig : ode_integ α) (time_step : α) (past prev curr next : wave_front α) : wave_front α :=
  ig.update (ig.ab3_ndir time_step past prev curr (ig.ab3_pos time_step past prev curr next))

/-! ## Quantities of the first half of `bottom_reflection` -/

/-- Height of the current position above the bottom (`height_water`). -/
def bottom_height_water (m : reflection_model α) (w : wave_queue α) (de az : Nat) : α :=
  (w.curr de az).position.rho - (m.bottom.height (w.curr de az).position).1

/-- The bottom normal at the current position after the shallow water guard. -/
def first_normal (m : reflection_model α) (w : wave_queue α) (de az : Nat) :
    wvector1 (double α) :=
  shallow_guard m (m.bottom.height (w.curr de az).position).1
    (m.bottom.height (w.curr de az).position).2

/-- The first `dot_full`: the current direction scaled by the squared sound
    speed, projected on the guarded normal. -/
def first_dot_full (m : reflection_model α) (w : wave_queue α) (de az : Nat) : double α :=
  let c := (w.curr de az).sound_speed
  let c2 := c * c
  (first_normal m w de az).rho * double.val (c2 * (w.curr de az).ndirection.rho)
    + (first_normal m w de az).theta * double.val (c2 * (w.curr de az).ndirection.theta)
    + (first_normal m w de az).phi * double.val (c2 * (w.curr de az).ndirection.phi)

/-! ## Quantities of `bottom_reflection` at the refined collision point -/

/-- The second `dot_full` of `bottom_reflection`: the refined direction scaled
    by the squared refined speed, projected on the normal at the refined position. -/
def bottom_dot_full (m : reflection_model α) (w : wave_queue α) (de az : Nat) (time_water : α) : α :=
  let position := (collision_location w de az time_water).1
  let ndirection := (collision_location w de az time_water).2.1
  let c := (collision_location w de az time_water).2.2
  let bottom_normal := (m.bottom.height position).2
  let c2 := c * c
  bottom_normal.rho * (c2 * ndirection.rho)
    + bottom_normal.theta * (c2 * ndirection.theta)
    + bottom_normal.phi * (c2 * ndirection.phi)

/-- The grazing angle `asin( -dot_full / c )` handed to the bottom's `reflect_loss`. -/
def bottom_grazing (m : reflection_model α) (w : wave_queue α) (de az : Nat) (time_water : α) :
    double α :=
  m.math.c_asin
    (double.val (-(bottom_dot_full m w de az time_water) / (collision_location w de az time_water).2.2))

/-- Amplitude and phase that the bottom's `reflect_loss` returns to
    `bottom_reflection`. -/
def bottom_loss (m : reflection_model α) (w : wave_queue α) (de az : Nat) (time_water : α) :
    (Nat → α) × (Nat → α) :=
  m.bottom.reflect_loss (collision_location w de az time_water).1 w.frequencies
    (bottom_grazing m w de az time_water)

/-- Amplitude that the surface's `reflect_loss` returns to `surface_reflection`. -/
def surface_loss (m : reflection_model α) (w : wave_queue α) (de az : Nat) : Nat → α :=
  (m.surface.reflect_loss (collision_location w de az (surface_time_water m w de az)).1
    w.frequencies (double.val (surface_grazing m w de az))).1

/-- The reflected vector `R = I - 2 dot(n,I) n` of `bottom_reflection` before
    it is normalised, with `I` the refined direction scaled by the squared speed. -/
def bottom_reflected (m : reflection_model α) (w : wave_queue α) (de az : Nat) (time_water : α) :
    wvector1 α :=
  let position := (collision_location w de az time_water).1
  let ndirection := (collision_location w de az time_water).2.1
  let c := (collision_location w de az time_water).2.2
  let bottom_normal := (m.bottom.height position).2
  let dot_full := bottom_dot_full m w de az time_water * 2
  { rho := c * c * ndirection.rho - dot_full * bottom_normal.rho
    theta := c * c * ndirection.theta - dot_full * bottom_normal.theta
    phi := c * c * ndirection.phi - dot_full * bottom_normal.phi }

/-- Squared Euclidean length of a vector. -/
def norm2 (v : wvector1 α) : α := v.rho * v.rho + v.theta * v.theta + v.phi * v.phi

/-! ## Quantities named by the success condition of `bottom_reflection` -/

/-- Scalar product of two vectors, component by component. -/
def dot (a b : wvector1 α) : α := a.rho * b.rho + a.theta * b.theta + a.phi * b.phi

/-- The incident vector `I` of `bottom_reflection`: the refined direction
    scaled by the squared refined speed. -/
def bottom_incident (w : wave_queue α) (de az : Nat) (time_water : α) : wvector1 α :=
  let ndirection := (collision_location w de az time_water).2.1
  let c := (collision_location w de az time_water).2.2
  { rho := c * c * ndirection.rho, theta := c * c * ndirection.theta
    phi := c * c * ndirection.phi }

/-- The bottom normal queried again at the refined position. -/
def refined_normal (m : reflection_model α) (w : wave_queue α) (de az : Nat) (time_water : α) :
    wvector1 α :=
  (m.bottom.height (collision_location w de az time_water).1).2

/-! ## Collections of the accumulator as a whole -/

/-- Modelled from the spec: `compute_contribution`, whose code is not among the
    embedded files, as a routine of the accumulator that writes the
    reverberation curve and nothing else; `f` gives the new curve for a pair
    and a boundary. -/
def curve_contribution {β : Type} (f : eigenverb → eigenverb → β → List ℚ → List ℚ) :
    eigenverb → eigenverb → β → eigenverb_monostatic → eigenverb_monostatic :=
  fun u v boundary s => { s with reverberation_curve := f u v boundary s.reverberation_curve }

/-- The four kinds of collections of an accumulator. -/
def collections (s : eigenverb_monostatic) :
    List eigenverb × List eigenverb × List (List eigenverb) × List (List eigenverb) :=
  (s.surface, s.bottom, s.upper, s.lower)

/-- The table `t'` has as many collections as `t`, and every collection of `t`
    is an initial segment of the collection of `t'` with the same index. -/
def table_grows (t t' : List (List eigenverb)) : Prop :=
  t.length = t'.length ∧ ∀ k (h1 : k < t.length) (h2 : k < t'.length), t[k] <+: t'[k]

/-- Every collection of `s` is an initial segment of the same collection of `s'`. -/
def collections_grow (s s' : eigenverb_monostatic) : Prop :=
  s.surface <+: s'.surface ∧ s.bottom <+: s'.bottom
    ∧ table_grows s.upper s'.upper ∧ table_grows s.lower s'.lower

/-! ## `sensor_pair_manager` -/

/-- Transmit and receive modes of a sensor (`xmitRcvModeType`); `NONE` stands
    for any value handled by the `default` branches. -/
inductive xmitRcvModeType where
  | NONE
  | RECEIVER
  | SOURCE
  | BOTH
deriving DecidableEq

/-- The query handed to `find_pairs` (`sensor_query_map`): the entries of a map
    from sensor identifiers to modes, in iteration order.  A map holds every
    identifier at most once. -/
abbrev sensor_query_map := List (Int × xmitRcvModeType)

/-- What `sensor_pair_manager` reads of a `sensor_model`: its identifier, its
    mode, and whether its source and receiver are multistatic. -/
structure sensor_model where
  sensorID : Int
  mode : xmitRcvModeType
  source_multistatic : Bool
  receiver_multistatic : Bool

/-- Data members of `sensor_pair_manager`: the sets of active source and
    receiver identifiers and the keys of the map of sensor pairs. -/
structure sensor_pair_manager (κ : Type) where
  src_list : Finset Int
  rcv_list : Finset Int
  map : Finset κ

/-- One pass of the first loop of `find_pairs`: the effect of one query entry
    on `(source_ids, receiver_ids)`. -/
def find_pairs_step (src_list rcv_list : Finset Int) (ids : Finset Int × Finset Int)
    (p : Int × xmitRcvModeType) : Finset Int × Finset Int :=
  let sensorID := p.1
  match p.2 with
  | xmitRcvModeType.SOURCE =>
    if sensorID ∈ src_list then (insert sensorID ids.1, ids.2) else ids
  | xmitRcvModeType.RECEIVER =>
    if sensorID ∈ rcv_list then (ids.1, insert sensorID ids.2) else ids
  | xmitRcvModeType.BOTH =>
    if sensorID ∈ src_list then
      if sensorID ∈ rcv_list then (insert sensorID ids.1, insert sensorID ids.2)
      else ((insert sensorID ids.1).erase sensorID, ids.2)
    else ids
  | xmitRcvModeType.NONE => ids

/-- The second loop of `find_pairs`: the keys of all pairs of a source and a
    receiver identifier, the sets walked in ascending order. -/
def build_hash_keys {κ : Type} [DecidableEq κ] (generate_hash_key : Int → Int → κ)
    (source_ids receiver_ids : Finset Int) : Finset κ :=
  (source_ids.sort (fun a b => a ≤ b)).foldl
    (fun hash_keys srcID =>
      (receiver_ids.sort (fun a b => a ≤ b)).foldl
        (fun hash_keys rcvID => insert (generate_hash_key srcID rcvID) hash_keys)
        hash_keys)
    ∅

/-- Finds all the keys of pairs that the query asks for. -/
def find_pairs {κ : Type} [DecidableEq κ] (generate_hash_key : Int → Int → κ)
    (mgr : sensor_pair_manager κ) (sensors : sensor_query_map) : Finset κ :=
  let ids := sensors.foldl (find_pairs_step mgr.src_list mgr.rcv_list) (∅, ∅)
  build_hash_keys generate_hash_key ids.1 ids.2

/-- The set S of the claim about `find_pairs`: queried with mode SOURCE and in
    the source list, or queried with mode BOTH and in both lists. -/
def query_source {κ : Type} (mgr : sensor_pair_manager κ) (sensors : sensor_query_map)
    (id : Int) : Prop :=
  ((id, xmitRcvModeType.SOURCE) ∈ sensors ∧ id ∈ mgr.src_list)
  ∨ ((id, xmitRcvModeType.BOTH) ∈ sensors ∧ id ∈ mgr.src_list ∧ id ∈ mgr.rcv_list)

/-- The set R of the claim about `find_pairs`: queried with mode RECEIVER and in
    the receiver list, or queried with mode BOTH and in both lists. -/
def query_receiver {κ : Type} (mgr : sensor_pair_manager κ) (sensors : sensor_query_map)
    (id : Int) : Prop :=
  ((id, xmitRcvModeType.RECEIVER) ∈ sensors ∧ id ∈ mgr.rcv_list)
  ∨ ((id, xmitRcvModeType.BOTH) ∈ sensors ∧ id ∈ mgr.src_list ∧ id ∈ mgr.rcv_list)

/-- Number of elements removed by `std::set::erase(key)`. -/
def erase_count (s : Finset Int) (id : Int) : Nat := if id ∈ s then 1 else 0

/-- Utility to remove a monostatic pair. -/
def remove_monostatic_pair {κ : Type} [DecidableEq κ] (generate_hash_key : Int → Int → κ)
    (mgr : sensor_pair_manager κ) (sensor : sensor_model) : sensor_pair_manager κ :=
  let sourceID := sensor.sensorID
  let hash_key := generate_hash_key sourceID sourceID
  if hash_key ∈ mgr.map then { mgr with map := mgr.map.erase hash_key } else mgr

/-- Utility to remove the multistatic pairs of a source; `find` is the lookup
    of `sensor_manager`. -/
def remove_multistatic_source {κ : Type} [DecidableEq κ] (generate_hash_key : Int → Int → κ)
    (find : Int → Option sensor_model) (mgr : sensor_pair_manager κ) (source : sensor_model) :
    sensor_pair_manager κ :=
  let sourceID := source.sensorID
  (mgr.rcv_list.sort (fun a b => a ≤ b)).foldl
    (fun mgr receiverID =>
      if sourceID ≠ receiverID then
        match find receiverID with
        | some receiver_sensor =>
          if receiver_sensor.receiver_multistatic then
            let hash_key := generate_hash_key sourceID receiverID
            if hash_key ∈ mgr.map then { mgr with map := mgr.map.erase hash_key } else mgr
          else mgr
        | none => mgr
      else mgr)
    mgr

/-- Utility to remove the multistatic pairs of a receiver. -/
def remove_multistatic_receiver {κ : Type} [DecidableEq κ] (generate_hash_key : Int → Int → κ)
    (find : Int → Option sensor_model) (mgr : sensor_pair_manager κ) (receiver : sensor_model) :
    sensor_pair_manager κ :=
  let receiverID := receiver.sensorID
  (mgr.src_list.sort (fun a b => a ≤ b)).foldl
    (fun mgr sourceID =>
      if sourceID ≠ receiverID then
        match find sourceID with
        | some source_sensor =>
          if source_sensor.source_multistatic then
            let hash_key := generate_hash_key sourceID receiverID
            if hash_key ∈ mgr.map then { mgr with map := mgr.map.erase hash_key } else mgr
          else mgr
        | none => mgr
      else mgr)
    mgr

/-- Removes the pairs of a sensor that is about to be deleted; returns the
    result and the manager after the call. -/
def remove_sensor {κ : Type} [DecidableEq κ] (generate_hash_key : Int → Int → κ)
    (find : Int → Option sensor_model) (mgr : sensor_pair_manager κ) (sensor : sensor_model) :
    Bool × sensor_pair_manager κ :=
  let result : Nat := 0
  -- remove sensorID from the lists of active sources and receivers
  let erased : Nat × sensor_pair_manager κ :=
    match sensor.mode with
    | xmitRcvModeType.SOURCE =>
      (erase_count mgr.src_list sensor.sensorID,
        { mgr with src_list := mgr.src_list.erase sensor.sensorID })
    | xmitRcvModeType.RECEIVER =>
      (erase_count mgr.rcv_list sensor.sensorID,
        { mgr with rcv_list := mgr.rcv_list.erase sensor.sensorID })
    | xmitRcvModeType.BOTH =>
      let _result := erase_count mgr.src_list sensor.sensorID
      let mgr := { mgr with src_list := mgr.src_list.erase sensor.sensorID }
      let result := erase_count mgr.rcv_list sensor.sensorID
      (result, { mgr with rcv_list := mgr.rcv_list.erase sensor.sensorID })
    | xmitRcvModeType.NONE => (result, mgr)
  let result := erased.1
  let mgr := erased.2
  -- Exit if the sensorID/mode was not found
  if result = 0 then (false, mgr)
  else
    match sensor.mode with
    | xmitRcvModeType.SOURCE =>
      (true, remove_multistatic_source generate_hash_key find mgr sensor)
    | xmitRcvModeType.RECEIVER =>
      (true, remove_multistatic_receiver generate_hash_key find mgr sensor)
    | xmitRcvModeType.BOTH =>
      let mgr := remove_monostatic_pair generate_hash_key mgr sensor
      let mgr := if sensor.source_multistatic then
        remove_multistatic_source generate_hash_key find mgr sensor else mgr
      let mgr := if sensor.receiver_multistatic then
        remove_multistatic_receiver generate_hash_key find mgr sensor else mgr
      (true, mgr)
    | xmitRcvModeType.NONE => (true, mgr)

/-! ## Concrete collaborators used to evaluate the definitions -/

/-- Square root of a rational, exact on squares of rationals. -/
def exact_sqrt (q : ℚ) : ℚ := (Nat.sqrt q.num.toNat : ℚ) / (Nat.sqrt q.den : ℚ)

/-- A math library over the rationals: the square root is exact on squares, and
    `asin` and `atan2` are stand-ins with the sign behaviour of the real functions
    (`atan2 y x` has the sign of `y` for `x ≥ 0`). -/
def sample_math : libm ℚ :=
  { sqrt := exact_sqrt, asin := fun x => x, atan2 := fun y x => y / (1 + x) }

/-- A snapshot in which every cell holds the same values. -/
def uniform_front (position ndirection : wvector1 α) (speed : α) : wave_front α :=
  fun _ _ =>
    { position := position, pos_gradient := ⟨0, 0, 0⟩, ndirection := ndirection,
      ndir_gradient := ⟨0, 0, 0⟩, sound_gradient := ⟨0, 0, 0⟩, sound_speed := speed,
      distance := 0, attenuation := fun _ => 0, phase := fun _ => 0 }

/-- An integrator that leaves every wavefront it is asked to write as it is. -/
def sample_integ : ode_integ α :=
  { fresh := uniform_front ⟨0, 0, 0⟩ ⟨0, 0, 0⟩ 0
    update := fun y => y
    rk1_pos := fun _ _ y1 => y1
    rk1_ndir := fun _ _ y1 => y1
    rk2_pos := fun _ _ _ y2 => y2
    rk2_ndir := fun _ _ _ y2 => y2
    rk3_pos := fun _ _ _ _ y3 _ => y3
    rk3_ndir := fun _ _ _ _ y3 _ => y3
    ab3_pos := fun _ _ _ _ y => y
    ab3_ndir := fun _ _ _ _ y => y }

/-- A boundary at radius `rho` with normal `normal` everywhere, whose
    reflection loss is `amplitude` and `phase` at every frequency. -/
def flat_boundary (rho : α) (normal : wvector1 α) (amplitude phase : α) : boundary_model α :=
  { height := fun _ => (rho, normal)
    reflect_loss := fun _ _ _ => (fun _ => amplitude, fun _ => phase) }

/-- A flat bottom at radius 5000 under a surface at the earth radius 6000, with
    `TOO_SHALLOW` = 300; the bottom adds a loss of 3 and a phase of 1/2, the
    surface a loss of 2. -/
def sample_model : reflection_model ℚ :=
  { bottom := flat_boundary 5000 ⟨1, 0, 0⟩ 3 (1/2)
    surface := flat_boundary 6000 ⟨1, 0, 0⟩ 2 0
    math := sample_math
    integ := sample_integ
    earth_radius := 6000
    TOO_SHALLOW := 300
    bottom_reverb := false
    surface_reverb := false }

/-- A wave whose four snapshots are uniform: every ray at `position` with
    direction `ndirection` and sound speed 2, time step 1, two frequencies. -/
def sample_wave (position ndirection : wvector1 α) : wave_queue α :=
  { past := uniform_front position ndirection 2
    prev := uniform_front position ndirection 2
    curr := uniform_front position ndirection 2
    next := uniform_front position ndirection 2
    time_step := 1
    time := 0
    frequencies := [100, 200] }

/-- A wave whose snapshots differ: sound speed 1, 2, 4, 7 and radial position
    10, 8, 5, 1 from past to next, time step 1/2. -/
def marching_wave : wave_queue ℚ :=
  { past := uniform_front ⟨10, 0, 0⟩ ⟨-1, 1, 0⟩ 1
    prev := uniform_front ⟨8, 1, 0⟩ ⟨-2, 1, 1⟩ 2
    curr := uniform_front ⟨5, 2, 1⟩ ⟨-3, 2, 1⟩ 4
    next := uniform_front ⟨1, 4, 3⟩ ⟨-5, 2, 3⟩ 7
    time_step := 1/2
    time := 0
    frequencies := [100] }

/-- A ray 10 above the flat bottom, descending: direction (-3/10, 2/5, 0). -/
def descending_wave : wave_queue ℚ := sample_wave ⟨5010, 0, 0⟩ ⟨-3/10, 2/5, 0⟩

/-- A ray 10 below the surface, rising: direction (3/10, 2/5, 0). -/
def rising_wave : wave_queue ℚ := sample_wave ⟨5990, 0, 0⟩ ⟨3/10, 2/5, 0⟩

/-- A ray 10 above the flat bottom travelling horizontally: direction (0, 1/2, 0). -/
def level_wave : wave_queue ℚ := sample_wave ⟨5010, 0, 0⟩ ⟨0, 1/2, 0⟩

/-- An eigenverb model with `SOURCE_ID` = 10 whose `create_eigenverb` keeps the
    arguments of the collision. -/
def sample_eigenverb_model : eigenverb_model :=
  { SOURCE_ID := 10
    create_eigenverb := fun c =>
      { de := c.de, az := c.az, time := c.time, grazing := c.grazing, speed := c.speed
        position := c.position, ndirection := c.ndirection, boundary_loss := c.boundary_loss } }

/-- An eigenverb at grid cell (de, 0) with the given travel time. -/
def sample_verb (de : Nat) (time : ℚ) : eigenverb :=
  { de := de, az := 0, time := time, grazing := 1/10, speed := 1500
    position := ⟨5000, 0, 0⟩, ndirection := ⟨-1, 0, 0⟩, boundary_loss := [0] }

/-- A collision at grid cell (3, 4) at time 7. -/
def sample_collision : collision_info :=
  { de := 3, az := 4, time := 7, dt := 1/10, grazing := 1/10, speed := 1500
    frequencies := [100], position := ⟨5000, 0, 0⟩, ndirection := ⟨-1, 0, 0⟩
    boundary_loss := [0] }

/-- An accumulator with two volume layers, one eigenverb on the surface and
    three bins at the floor value. -/
def sample_monostatic : eigenverb_monostatic :=
  { pulse := 1, max_index := 2, max_time := 10, n := 2, source_origin := 10
    surface := [sample_verb 0 1], bottom := [], upper := [[], []], lower := [[], []]
    reverberation_curve := [1/100, 1/100, 1/100] }

/-- Boundaries without content, for runs in which only the curve matters. -/
def unit_boundaries : reverb_boundaries Unit :=
  { bottom_boundary := (), surface_boundary := (), getLayer := fun _ => () }

/-- A contribution that adds the energy 1 to bin 0 for every pair. -/
def unit_contribution : eigenverb → eigenverb → Unit → List ℚ → List ℚ :=
  fun _ _ _ curve => add_energy 0 1 curve

/-- The sample accumulator with the given volume layer collections. -/
def volume_state (upper lower : List (List eigenverb)) : eigenverb_monostatic :=
  { sample_monostatic with upper := upper, lower := lower }

/-- Write into `dest` the position reached from `y0` after `dt` along the
    direction of `y0`. -/
def drift_pos (dt : ℚ) (y0 dest : wave_front ℚ) : wave_front ℚ :=
  fun d a =>
    { dest d a with
      position :=
        ⟨(y0 d a).position.rho + dt * (y0 d a).ndirection.rho,
         (y0 d a).position.theta + dt * (y0 d a).ndirection.theta,
         (y0 d a).position.phi + dt * (y0 d a).ndirection.phi⟩ }

/-- Write into `dest` the direction of `y0`. -/
def drift_ndir (y0 dest : wave_front ℚ) : wave_front ℚ :=
  fun d a => { dest d a with ndirection := (y0 d a).ndirection }

/-- The update of a wavefront in a medium of constant sound speed 1500: the
    gradients vanish. -/
def drift_update (y : wave_front ℚ) : wave_front ℚ :=
  fun d a =>
    { y d a with
      pos_gradient := ⟨0, 0, 0⟩, ndir_gradient := ⟨0, 0, 0⟩, sound_gradient := ⟨0, 0, 0⟩
      sound_speed := 1500, distance := 0 }

/-- An integrator for straight rays in a medium of constant sound speed: every
    stage moves the position along the direction of its first argument. -/
def drift_integ : ode_integ ℚ :=
  { fresh := uniform_front ⟨0, 0, 0⟩ ⟨0, 0, 0⟩ 0
    update := drift_update
    rk1_pos := fun dt y0 y1 => drift_pos dt y0 y1
    rk1_ndir := fun _ y0 y1 => drift_ndir y0 y1
    rk2_pos := fun dt y0 _ y2 => drift_pos dt y0 y2
    rk2_ndir := fun _ y0 _ y2 => drift_ndir y0 y2
    rk3_pos := fun dt y0 _ _ y3 _ => drift_pos dt y0 y3
    rk3_ndir := fun _ y0 _ _ y3 _ => drift_ndir y0 y3
    ab3_pos := fun dt _ _ curr next => drift_pos dt curr next
    ab3_ndir := fun _ _ _ curr next => drift_ndir curr next }

/-- The sample model with the straight ray integrator. -/
def drift_model : reflection_model ℚ := { sample_model with integ := drift_integ }

/-- The sample model over a sloping bottom at radius 5900, which is 100 below
    the earth radius and so shallower than `TOO_SHALLOW` = 300; its unit normal
    is (4/5, 3/5, 0). -/
def shallow_model : reflection_model ℚ :=
  { sample_model with bottom := flat_boundary 5900 ⟨4/5, 3/5, 0⟩ 3 (1/2) }

/-- A ray 10 above the shallow bottom, descending. -/
def shallow_wave : wave_queue ℚ := sample_wave ⟨5910, 0, 0⟩ ⟨-3/10, 2/5, 0⟩

/-- A ray 10 above the shallow bottom, moving against its slope. -/
def shoreward_wave : wave_queue ℚ := sample_wave ⟨5910, 0, 0⟩ ⟨-3/10, -2/5, 0⟩

/-- The sample model over a level bottom at radius 5900, 100 below the earth
    radius and so shallower than `TOO_SHALLOW` = 300; its normal is the radial
    unit vector (1, 0, 0). -/
def reef_model : reflection_model ℚ :=
  { sample_model with bottom := flat_boundary 5900 ⟨1, 0, 0⟩ 3 (1/2) }

/-- A vertical ray 755 above the sample bottom in a medium whose sound speed
    falls from 1520 over 1510 to 1500 from prev to next; in every snapshot the
    direction has the length 1 / (sound speed). -/
def steep_wave : wave_queue ℚ :=
  { past := uniform_front ⟨5755, 0, 0⟩ ⟨-1/1530, 0, 0⟩ 1530
    prev := uniform_front ⟨5755, 0, 0⟩ ⟨-1/1520, 0, 0⟩ 1520
    curr := uniform_front ⟨5755, 0, 0⟩ ⟨-1/1510, 0, 0⟩ 1510
    next := uniform_front ⟨5755, 0, 0⟩ ⟨-1/1500, 0, 0⟩ 1500
    time_step := 1
    time := 0
    frequencies := [100, 200] }

/-- The sample model over any ordered field, with the square root handed in:
    a level bottom at radius 5000 with normal (1, 0, 0). -/
def plain_model (sqrt : α → α) : reflection_model α :=
  { bottom := flat_boundary 5000 ⟨1, 0, 0⟩ 3 (1/2)
    surface := flat_boundary 6000 ⟨1, 0, 0⟩ 2 0
    math := { sqrt := sqrt, asin := fun x => x, atan2 := fun y x => y / (1 + x) }
    integ := sample_integ
    earth_radius := 6000
    TOO_SHALLOW := 300
    bottom_reverb := false
    surface_reverb := false }

/-- A ray 10 above the level bottom with direction (-1/4, 1/4, 0) and sound
    speed 2: its reflected vector (1, 1, 0) has the squared length 2. -/
def oblique_wave : wave_queue α := sample_wave ⟨5010, 0, 0⟩ ⟨-1/4, 1/4, 0⟩

/-- A manager with source 5 and receivers 5 and 7 active. -/
def sample_manager : sensor_pair_manager (Int × Int) :=
  { src_list := {5}, rcv_list := {5, 7}, map := ∅ }

/-- A manager in which identifier 5 is an active source and no receiver. -/
def source_only_manager : sensor_pair_manager (Int × Int) :=
  { src_list := {5}, rcv_list := ∅, map := ∅ }

/-- A sensor with identifier 5 and mode BOTH, not multistatic. -/
def both_sensor : sensor_model :=
  { sensorID := 5, mode := xmitRcvModeType.BOTH, source_multistatic := false
    receiver_multistatic := false }

/-! ## Auxiliary lemmas -/

@[simp] theorem double.ofNat_eq (n : Nat) [OfNat α n] :
    (OfNat.ofNat n : double α) = double.val (OfNat.ofNat n) := rfl

@[simp] theorem double.zero_eq : (0 : double α) = double.val 0 := rfl

@[simp] theorem double.one_eq : (1 : double α) = double.val 1 := rfl

@[simp] theorem double.val_add_val (x y : α) :
    double.val x + double.val y = double.val (x + y) := rfl

@[simp] theorem double.val_mul_val (x y : α) :
    double.val x * double.val y = double.val (x * y) := rfl

@[simp] theorem double.neg_val (x : α) : -double.val x = double.val (-x) := rfl

@[simp] theorem double.val_div_val (x y : α) :
    double.val x / double.val y = if y = 0 then double.nan else double.val (x / y) := rfl

@[simp] theorem double.nan_add (a : double α) : double.nan + a = double.nan := rfl

@[simp] theorem double.add_nan (a : double α) : a + double.nan = double.nan := by
  cases a <;> rfl

@[simp] theorem double.nan_mul (a : double α) : double.nan * a = double.nan := rfl

@[simp] theorem double.mul_nan (a : double α) : a * double.nan = double.nan := by
  cases a <;> rfl

@[simp] theorem double.nan_div (a : double α) : double.nan / a = double.nan := rfl

@[simp] theorem double.div_nan (a : double α) : a / double.nan = double.nan := by
  cases a <;> rfl

@[simp] theorem double.ge_val_val (x y : α) :
    (double.val x).ge (double.val y) = decide (x ≥ y) := rfl

@[simp] theorem double.lt_val_val (x y : α) :
    (double.val x).lt (double.val y) = decide (x < y) := rfl

@[simp] theorem double.gt_val_val (x y : α) :
    (double.val x).gt (double.val y) = decide (x > y) := rfl

@[simp] theorem double.le_val_val (x y : α) :
    (double.val x).le (double.val y) = decide (x ≤ y) := rfl

@[simp] theorem double.nan_ge (a : double α) : double.nan.ge a = false := rfl

@[simp] theorem double.nan_lt (a : double α) : double.nan.lt a = false := rfl

@[simp] theorem double.nan_gt (a : double α) : double.nan.gt a = false := rfl

@[simp] theorem double.nan_le (a : double α) : double.nan.le a = false := rfl

theorem exact_sqrt_sq (x : ℚ) (hx : 0 ≤ x) : exact_sqrt (x * x) = x := by
  unfold exact_sqrt
  have hn : (x * x).num = x.num * x.num := Rat.mul_self_num x
  have hd : (x * x).den = x.den * x.den := Rat.mul_self_den x
  have h0 : 0 ≤ x.num := Rat.num_nonneg.mpr hx
  have ht : (x.num * x.num).toNat = x.num.toNat * x.num.toNat := by
    obtain ⟨k, hk⟩ := Int.eq_ofNat_of_zero_le h0
    rw [hk]
    simp only [← Int.natCast_mul, Int.toNat_natCast]
  rw [hn, hd, Nat.sqrt_eq, ht, Nat.sqrt_eq]
  have h2 : ((x.num.toNat : ℕ) : ℚ) = (x.num : ℚ) := by
    have := Int.toNat_of_nonneg h0
    exact_mod_cast this
  rw [h2]
  exact Rat.num_div_den x

theorem exact_sqrt_nonneg (x : ℚ) : 0 ≤ exact_sqrt x := by
  unfold exact_sqrt
  positivity

theorem exact_sqrt_four : exact_sqrt 4 = 2 := by
  have h := exact_sqrt_sq 2 (by norm_num)
  norm_num at h
  exact h

theorem exact_sqrt_four_25 : exact_sqrt (4/25) = 2/5 := by
  have h := exact_sqrt_sq (2/5) (by norm_num)
  norm_num at h
  exact h

theorem exact_sqrt_quarter : exact_sqrt (1/4) = 1/2 := by
  have h := exact_sqrt_sq (1/2) (by norm_num)
  norm_num at h
  exact h

/-- On the descending ray the time to the bottom is clamped to the time step. -/
theorem descending_time_water :
    bottom_time_water sample_model descending_wave 0 0 = some 1 := by
  norm_num [bottom_time_water, shallow_guard, sample_model, flat_boundary, descending_wave,
    sample_wave, uniform_front]
  rfl

/-- The descending ray is reflected by the bottom. -/
theorem descending_returned :
    (bottom_reflection sample_model descending_wave 0 0 1000).returned = true := by
  unfold bottom_reflection
  rw [descending_time_water]
  norm_num [sample_model, flat_boundary, descending_wave, sample_wave, uniform_front,
    collision_location]

/-- The horizontal ray misses the bottom. -/
theorem level_bottom_returned :
    (bottom_reflection sample_model level_wave 0 0 1000).returned = false := by
  norm_num [bottom_reflection, bottom_time_water, shallow_guard, sample_model, flat_boundary,
    level_wave, sample_wave, uniform_front]

/-- The horizontal ray misses the surface. -/
theorem level_surface_returned :
    (surface_reflection sample_model level_wave 0 0).returned = false := by
  norm_num [surface_reflection, surface_grazing, sample_model, sample_math, level_wave,
    sample_wave, uniform_front]

/-- The grazing angle computed for the rising ray. -/
theorem rising_grazing : surface_grazing sample_model rising_wave 0 0 = 3/14 := by
  have h : ((2:ℚ)/5 * (2/5) + 0 * 0) = 4/25 := by norm_num
  simp only [surface_grazing, sample_model, sample_math, rising_wave, sample_wave,
    uniform_front, h, exact_sqrt_four_25]
  norm_num

/-- The rising ray is reflected by the surface. -/
theorem rising_returned :
    (surface_reflection sample_model rising_wave 0 0).returned = true := by
  unfold surface_reflection
  simp only [rising_grazing]
  norm_num


theorem add_bottom_loss_succ (n : Nat) (amplitude phase : Nat → α) (cell : wave_cell α) :
    add_bottom_loss (n + 1) amplitude phase cell =
      { add_bottom_loss n amplitude phase cell with
        attenuation := Function.update (add_bottom_loss n amplitude phase cell).attenuation n
          ((add_bottom_loss n amplitude phase cell).attenuation n + amplitude n)
        phase := Function.update (add_bottom_loss n amplitude phase cell).phase n
          ((add_bottom_loss n amplitude phase cell).phase n + phase n) } := by
  simp [add_bottom_loss, List.range_succ, List.foldl_append]

theorem add_bottom_loss_attenuation (n : Nat) (amplitude phase : Nat → α) (cell : wave_cell α)
    (f : Nat) :
    (add_bottom_loss n amplitude phase cell).attenuation f
      = if f < n then cell.attenuation f + amplitude f else cell.attenuation f := by
  induction n with
  | zero => simp [add_bottom_loss]
  | succ n ih =>
    rw [add_bottom_loss_succ]
    by_cases hf : f = n
    · subst hf
      simp [ih]
    · simp only [Function.update_noteq hf, ih]
      by_cases hlt : f < n
      · simp [hlt, Nat.lt_succ_of_lt hlt]
      · have : ¬ f < n + 1 := by omega
        simp [hlt, this]

theorem add_bottom_loss_phase (n : Nat) (amplitude phase : Nat → α) (cell : wave_cell α)
    (f : Nat) :
    (add_bottom_loss n amplitude phase cell).phase f
      = if f < n then cell.phase f + phase f else cell.phase f := by
  induction n with
  | zero => simp [add_bottom_loss]
  | succ n ih =>
    rw [add_bottom_loss_succ]
    by_cases hf : f = n
    · subst hf
      simp [ih]
    · simp only [Function.update_noteq hf, ih]
      by_cases hlt : f < n
      · simp [hlt, Nat.lt_succ_of_lt hlt]
      · have : ¬ f < n + 1 := by omega
        simp [hlt, this]

theorem add_surface_loss_succ (n : Nat) (amplitude : Nat → α) (cell : wave_cell α) :
    add_surface_loss (n + 1) amplitude cell =
      { add_surface_loss n amplitude cell with
        attenuation := Function.update (add_surface_loss n amplitude cell).attenuation n
          ((add_surface_loss n amplitude cell).attenuation n + amplitude n)
        phase := Function.update (add_surface_loss n amplitude cell).phase n
          ((add_surface_loss n amplitude cell).phase n - M_PI) } := by
  simp [add_surface_loss, List.range_succ, List.foldl_append]

theorem add_surface_loss_attenuation (n : Nat) (amplitude : Nat → α) (cell : wave_cell α)
    (f : Nat) :
    (add_surface_loss n amplitude cell).attenuation f
      = if f < n then cell.attenuation f + amplitude f else cell.attenuation f := by
  induction n with
  | zero => simp [add_surface_loss]
  | succ n ih =>
    rw [add_surface_loss_succ]
    by_cases hf : f = n
    · subst hf
      simp [ih]
    · simp only [Function.update_noteq hf, ih]
      by_cases hlt : f < n
      · simp [hlt, Nat.lt_succ_of_lt hlt]
      · have : ¬ f < n + 1 := by omega
        simp [hlt, this]

theorem add_surface_loss_phase (n : Nat) (amplitude : Nat → α) (cell : wave_cell α)
    (f : Nat) :
    (add_surface_loss n amplitude cell).phase f
      = if f < n then cell.phase f - M_PI else cell.phase f := by
  induction n with
  | zero => simp [add_surface_loss]
  | succ n ih =>
    rw [add_surface_loss_succ]
    by_cases hf : f = n
    · subst hf
      simp [ih]
    · simp only [Function.update_noteq hf, ih]
      by_cases hlt : f < n
      · simp [hlt, Nat.lt_succ_of_lt hlt]
      · have : ¬ f < n + 1 := by omega
        simp [hlt, this]

/-- Copying a reinitialised cell leaves attenuation and phase of every cell as they are. -/
theorem reflection_copy_loss (element : wave_front α) (de az : Nat) (results : wave_front α)
    (d a : Nat) :
    (reflection_copy element de az results d a).attenuation = (element d a).attenuation
    ∧ (reflection_copy element de az results d a).phase = (element d a).phase := by
  unfold reflection_copy wave_front.set
  by_cases h : d = de ∧ a = az
  · obtain ⟨h1, h2⟩ := h
    subst h1; subst h2
    simp
  · simp [h]

/-- Reinitialising a ray leaves attenuation and phase of every cell of the four
    snapshots as they are. -/
theorem reflection_reinit_loss (m : reflection_model α) (w : wave_queue α) (de az : Nat)
    (time_water : α) (position : wposition1 α) (ndirection : wvector1 α) (speed : α) (d a : Nat) :
    ((reflection_reinit m w de az time_water position ndirection speed).past d a).attenuation
        = (w.past d a).attenuation
    ∧ ((reflection_reinit m w de az time_water position ndirection speed).past d a).phase
        = (w.past d a).phase
    ∧ ((reflection_reinit m w de az time_water position ndirection speed).prev d a).attenuation
        = (w.prev d a).attenuation
    ∧ ((reflection_reinit m w de az time_water position ndirection speed).prev d a).phase
        = (w.prev d a).phase
    ∧ ((reflection_reinit m w de az time_water position ndirection speed).curr d a).attenuation
        = (w.curr d a).attenuation
    ∧ ((reflection_reinit m w de az time_water position ndirection speed).curr d a).phase
        = (w.curr d a).phase
    ∧ ((reflection_reinit m w de az time_water position ndirection speed).next d a).attenuation
        = (w.next d a).attenuation
    ∧ ((reflection_reinit m w de az time_water position ndirection speed).next d a).phase
        = (w.next d a).phase := by
  simp only [reflection_reinit]
  refine ⟨?_, ?_, ?_, ?_, ?_, ?_, ?_, ?_⟩
  · exact (reflection_copy_loss _ _ _ _ _ _).1
  · exact (reflection_copy_loss _ _ _ _ _ _).2
  · exact (reflection_copy_loss _ _ _ _ _ _).1
  · exact (reflection_copy_loss _ _ _ _ _ _).2
  · exact (reflection_copy_loss _ _ _ _ _ _).1
  · exact (reflection_copy_loss _ _ _ _ _ _).2
  · exact (reflection_copy_loss _ _ _ _ _ _).1
  · exact (reflection_copy_loss _ _ _ _ _ _).2

/-- What a successful `bottom_reflection` did, in terms of the quantities at the
    refined collision point. -/
theorem bottom_reflection_true (m : reflection_model α) (w : wave_queue α) (de az : Nat)
    (depth time_water : α)
    (h : (bottom_reflection m w de az depth).returned = true)
    (htw : bottom_time_water m w de az = some (double.val time_water)) :
    bottom_dot_full m w de az time_water < 0
      ∧ bottom_reflection m w de az depth =
        (let position := (collision_location w de az time_water).1
         let ndirection := (collision_location w de az time_water).2.1
         let c := (collision_location w de az time_water).2.2
         let bottom_normal := (m.bottom.height position).2
         let dot_full := bottom_dot_full m w de az time_water
         let loss := m.bottom.reflect_loss position w.frequencies
           (bottom_grazing m w de az time_water)
         let incident : wvector1 α :=
           ⟨c * c * ndirection.rho, c * c * ndirection.theta, c * c * ndirection.phi⟩
         let reflected : wvector1 α :=
           ⟨incident.rho - dot_full * 2 * bottom_normal.rho,
            incident.theta - dot_full * 2 * bottom_normal.theta,
            incident.phi - dot_full * 2 * bottom_normal.phi⟩
         let N := m.math.sqrt (reflected.rho * reflected.rho + reflected.theta * reflected.theta
           + reflected.phi * reflected.phi) * c
         let out : wvector1 α := ⟨reflected.rho / N, reflected.theta / N, reflected.phi / N⟩
         let cell := add_bottom_loss w.frequencies.length loss.1 loss.2 (w.next de az)
         { returned := true
           wave := reflection_reinit m { w with next := w.next.set de az cell }
             de az time_water position out c
           reinit := [⟨de, az, time_water, position, out, c⟩]
           reverb := if m.bottom_reverb then
             [⟨de, az, w.time + time_water, position, incident, c⟩] else []
           loss := [⟨position, bottom_grazing m w de az time_water⟩] }) := by
  unfold bottom_reflection at h ⊢
  simp only [htw] at h ⊢
  by_cases hd : bottom_dot_full m w de az time_water < 0
  · refine ⟨hd, ?_⟩
    have hd2 := hd
    simp only [bottom_dot_full] at hd2
    simp only [ge_iff_le, not_le.mpr hd2, if_false, bottom_grazing, bottom_dot_full]
  · exfalso
    have hd2 := hd
    simp only [bottom_dot_full, not_lt] at hd2
    simp [hd2] at h

/-- What a successful `surface_reflection` did. -/
theorem surface_reflection_true (m : reflection_model α) (w : wave_queue α) (de az : Nat)
    (h : (surface_reflection m w de az).returned = true) :
    0 < surface_grazing m w de az
    ∧ surface_reflection m w de az =
      (let time_water := surface_time_water m w de az
       let position := (collision_location w de az time_water).1
       let ndirection := (collision_location w de az time_water).2.1
       let c := (collision_location w de az time_water).2.2
       let out : wvector1 α := ⟨-ndirection.rho, ndirection.theta, ndirection.phi⟩
       let cell := add_surface_loss w.frequencies.length (surface_loss m w de az) (w.next de az)
       { returned := true
         wave := reflection_reinit m { w with next := w.next.set de az cell }
           de az time_water position out c
         reinit := [⟨de, az, time_water, position, out, c⟩]
         reverb := if m.surface_reverb then
           [⟨de, az, w.time + time_water, position, ndirection, c⟩] else []
         loss := [⟨position, double.val (surface_grazing m w de az)⟩] }) := by
  unfold surface_reflection at h ⊢
  by_cases hg : surface_grazing m w de az ≤ 0
  · simp [hg] at h
  · refine ⟨not_le.mp hg, ?_⟩
    simp only [hg, if_false, surface_loss]

/-- Attenuation and phase of every cell after a loss was added to cell
    (de, az) of `next` and the ray was reinitialised. -/
theorem reinit_after_set_loss (m : reflection_model α) (w : wave_queue α) (de az : Nat)
    (cell : wave_cell α) (time_water : α) (position : wposition1 α) (ndirection : wvector1 α)
    (speed : α) (d a : Nat) :
    ((reflection_reinit m { w with next := w.next.set de az cell } de az time_water position
        ndirection speed).next d a).attenuation
      = (if d = de ∧ a = az then cell else w.next d a).attenuation
    ∧ ((reflection_reinit m { w with next := w.next.set de az cell } de az time_water position
        ndirection speed).next d a).phase
      = (if d = de ∧ a = az then cell else w.next d a).phase := by
  have h := reflection_reinit_loss m { w with next := w.next.set de az cell } de az time_water
    position ndirection speed d a
  exact ⟨h.2.2.2.2.2.2.1, h.2.2.2.2.2.2.2⟩

/-- Attenuation and phase of past, prev and curr after a loss was added to a
    cell of `next` and the ray was reinitialised. -/
theorem reinit_after_set_frame (m : reflection_model α) (w : wave_queue α) (de az : Nat)
    (cell : wave_cell α) (time_water : α) (position : wposition1 α) (ndirection : wvector1 α)
    (speed : α) (d a : Nat) :
    ((reflection_reinit m { w with next := w.next.set de az cell } de az time_water position
        ndirection speed).past d a).attenuation = (w.past d a).attenuation
    ∧ ((reflection_reinit m { w with next := w.next.set de az cell } de az time_water position
        ndirection speed).past d a).phase = (w.past d a).phase
    ∧ ((reflection_reinit m { w with next := w.next.set de az cell } de az time_water position
        ndirection speed).prev d a).attenuation = (w.prev d a).attenuation
    ∧ ((reflection_reinit m { w with next := w.next.set de az cell } de az time_water position
        ndirection speed).prev d a).phase = (w.prev d a).phase
    ∧ ((reflection_reinit m { w with next := w.next.set de az cell } de az time_water position
        ndirection speed).curr d a).attenuation = (w.curr d a).attenuation
    ∧ ((reflection_reinit m { w with next := w.next.set de az cell } de az time_water position
        ndirection speed).curr d a).phase = (w.curr d a).phase := by
  have h := reflection_reinit_loss m { w with next := w.next.set de az cell } de az time_water
    position ndirection speed d a
  exact ⟨h.1, h.2.1, h.2.2.1, h.2.2.2.1, h.2.2.2.2.1, h.2.2.2.2.2.1⟩

/-- The call of `reflection_reinit` made by a successful `bottom_reflection`. -/
theorem bottom_reflection_reinit (m : reflection_model α) (w : wave_queue α) (de az : Nat)
    (depth time_water : α)
    (h : (bottom_reflection m w de az depth).returned = true)
    (htw : bottom_time_water m w de az = some (double.val time_water)) :
    bottom_dot_full m w de az time_water < 0
    ∧ (bottom_reflection m w de az depth).reinit =
      [{ de := de, az := az, time_water := time_water
         position := (collision_location w de az time_water).1
         ndirection :=
           ⟨(bottom_reflected m w de az time_water).rho
              / (m.math.sqrt (norm2 (bottom_reflected m w de az time_water))
                  * (collision_location w de az time_water).2.2),
            (bottom_reflected m w de az time_water).theta
              / (m.math.sqrt (norm2 (bottom_reflected m w de az time_water))
                  * (collision_location w de az time_water).2.2),
            (bottom_reflected m w de az time_water).phi
              / (m.math.sqrt (norm2 (bottom_reflected m w de az time_water))
                  * (collision_location w de az time_water).2.2)⟩
         speed := (collision_location w de az time_water).2.2 }] := by
  obtain ⟨hd, heq⟩ := bottom_reflection_true m w de az depth time_water h htw
  refine ⟨hd, ?_⟩
  rw [heq]
  simp only [bottom_reflected, norm2]

/-- The call of `reflection_reinit` made for the descending ray. -/
theorem descending_reinit :
    (bottom_reflection sample_model descending_wave 0 0 1000).reinit =
      [⟨0, 0, 1, ⟨5010, 0, 0⟩, ⟨3/10, 2/5, 0⟩, 2⟩] := by
  rw [(bottom_reflection_reinit sample_model descending_wave 0 0 1000 1 descending_returned
    descending_time_water).2]
  have hR : bottom_reflected sample_model descending_wave 0 0 1 = ⟨6/5, 8/5, 0⟩ := by
    norm_num [bottom_reflected, bottom_dot_full, collision_location, sample_model, flat_boundary,
      descending_wave, sample_wave, uniform_front]
  have hn : norm2 (⟨6/5, 8/5, 0⟩ : wvector1 ℚ) = 4 := by norm_num [norm2]
  have hc : collision_location descending_wave 0 0 1 = (⟨5010, 0, 0⟩, ⟨-3/10, 2/5, 0⟩, 2) := by
    norm_num [collision_location, descending_wave, sample_wave, uniform_front]
  rw [hR, hn, hc]
  have hs : sample_model.math.sqrt 4 = 2 := exact_sqrt_four
  rw [hs]
  norm_num

/-- The inner loop of the recording convolution appends, in order, the pairs
    `(u, v)` whose combined travel time is below `max_time`. -/
theorem convolve_inner_calls (max_time : ℚ) (u : eigenverb) (set : List eigenverb)
    (log : List (eigenverb × eigenverb)) :
    set.foldl
        (fun s v => if max_time ≤ u.time + v.time then s else s ++ [(u, v)]) log
      = log ++ (set.map (Prod.mk u)).filter
          (fun p => decide (p.1.time + p.2.time < max_time)) := by
  induction set generalizing log with
  | nil => simp
  | cons v rest ih =>
    simp only [List.foldl_cons, List.map_cons]
    by_cases hv : max_time ≤ u.time + v.time
    · have hnot : ¬ (u.time + v.time < max_time) := not_lt.mpr hv
      rw [if_pos hv, ih, List.filter_cons_of_neg (by simpa using hv)]
    · have hlt : u.time + v.time < max_time := not_le.mp hv
      rw [if_neg hv, ih, List.filter_cons_of_pos (by simpa using hlt), List.append_assoc]
      rfl

/-- The outer loop of the recording convolution over a list `us` of first
    components. -/
theorem convolve_outer_calls (max_time : ℚ) (us set : List eigenverb)
    (log : List (eigenverb × eigenverb)) :
    us.foldl
        (fun s u => set.foldl
          (fun s v => if max_time ≤ u.time + v.time then s else s ++ [(u, v)]) s) log
      = log ++ (List.product us set).filter
          (fun p => decide (p.1.time + p.2.time < max_time)) := by
  induction us generalizing log with
  | nil => simp [List.product]
  | cons u rest ih =>
    simp only [List.foldl_cons]
    have hp : (u :: rest).product set = List.map (Prod.mk u) set ++ rest.product set :=
      List.product_cons u rest set
    rw [convolve_inner_calls, ih, hp, List.filter_append, List.append_assoc]

/-- When the member `_n` is at least the last index of the table, the recording
    pass visits every collection once, in order, with its own index. -/
theorem volume_pass_calls_all (n : Nat) (table : List (List eigenverb)) (layer : Nat)
    (log : List (Nat × List eigenverb)) (hn : layer + table.length ≤ n + 1) :
    volume_pass (fun set layer log => log ++ [(layer, set)]) (fun layer => layer) n table layer log
      = log ++ table.enumFrom layer := by
  induction table generalizing layer log with
  | nil => simp [volume_pass]
  | cons k rest ih =>
    have hle : layer ≤ n := by
      simp only [List.length_cons] at hn
      omega
    have hrest : layer + 1 + rest.length ≤ n + 1 := by
      simp only [List.length_cons] at hn
      omega
    simp only [volume_pass, if_pos hle, List.enumFrom_cons]
    rw [ih (layer + 1) _ hrest, List.append_assoc]
    rfl

/-- The copied fields of the destination cell are those of cell (0,0) of the
    single-cell result. -/
theorem reflection_copy_fields (element : wave_front α) (de az : Nat) (results : wave_front α) :
    copied_fields (reflection_copy element de az results de az) = copied_fields (results 0 0) := by
  simp [reflection_copy, wave_front.set, copied_fields]

/-- Cells other than (de, az) are not written by the copy. -/
theorem reflection_copy_other (element : wave_front α) (de az : Nat) (results : wave_front α)
    (d a : Nat) (hda : ¬ (d = de ∧ a = az)) :
    reflection_copy element de az results d a = element d a := by
  simp [reflection_copy, wave_front.set, hda]

/-- The steady state step of the straight ray integrator reads only the copied
    fields of cell (0,0) of `curr`. -/
theorem drift_step_local (time_step : ℚ)
    (past past' prev prev' curr curr' next next' : wave_front ℚ)
    (_hpast : copied_fields (past 0 0) = copied_fields (past' 0 0))
    (_hprev : copied_fields (prev 0 0) = copied_fields (prev' 0 0))
    (hcurr : copied_fields (curr 0 0) = copied_fields (curr' 0 0)) :
    copied_fields (ab3_step drift_model.integ time_step past prev curr next 0 0)
      = copied_fields (ab3_step drift_model.integ time_step past' prev' curr' next' 0 0) := by
  simp only [copied_fields, Prod.mk.injEq] at hcurr
  obtain ⟨h1, _, h3, _⟩ := hcurr
  simp [ab3_step, drift_model, drift_integ, drift_update, drift_ndir, drift_pos, copied_fields,
    h1, h3]

/-- The two tests on `time_water` clamp it to `[0, dt]`. -/
theorem clamp_eq (x dt : α) :
    (if (if x < 0 then 0 else x) > dt then dt else (if x < 0 then 0 else x))
      = min (max x 0) dt := by
  have hmax : (if x < 0 then 0 else x) = max x 0 := by
    by_cases hx : x < 0
    · rw [if_pos hx, max_eq_right (le_of_lt hx)]
    · rw [if_neg hx, max_eq_left (not_lt.mp hx)]
  rw [hmax]
  by_cases h : max x 0 > dt
  · rw [if_pos h, min_eq_right (le_of_lt h)]
  · rw [if_neg h, min_eq_left (not_lt.mp h)]

/-- The two tests on a defined `time_water` clamp it to `[0, dt]`. -/
theorem double_clamp_eq (x dt : α) :
    (if (if (double.val x).lt (double.val 0) then double.val 0 else double.val x).gt (double.val dt)
      then double.val dt
      else (if (double.val x).lt (double.val 0) then double.val 0 else double.val x))
      = double.val (min (max x 0) dt) := by
  rw [← clamp_eq]
  by_cases hx : x < 0
  · by_cases hd : (0 : α) > dt
    · simp [hx, hd]
    · simp [hx, hd]
  · by_cases hd : x > dt
    · simp [hx, hd]
    · simp [hx, hd]

/-- The radial component of the guarded normal is an exact value. -/
theorem first_normal_rho (m : reflection_model α) (w : wave_queue α) (de az : Nat) :
    (first_normal m w de az).rho
      = double.val (if m.earth_radius - (m.bottom.height (w.curr de az).position).1 < m.TOO_SHALLOW
          then 0 else (m.bottom.height (w.curr de az).position).2.rho) := by
  unfold first_normal shallow_guard
  split <;> rfl

/-- A ray at or below the bottom gets `time_water` = 0. -/
theorem bottom_time_water_low (m : reflection_model α) (w : wave_queue α) (de az : Nat)
    (hh : bottom_height_water m w de az ≤ 0) :
    bottom_time_water m w de az = some (double.val 0) := by
  unfold bottom_time_water
  simp only [bottom_height_water] at hh
  simp only [gt_iff_lt, not_lt.mpr hh, if_false]

/-- A ray above the bottom with a NaN first `dot_full` passes the first test and
    gets a NaN `time_water`. -/
theorem bottom_time_water_nan (m : reflection_model α) (w : wave_queue α) (de az : Nat)
    (hh : 0 < bottom_height_water m w de az)
    (hd : first_dot_full m w de az = double.nan) :
    bottom_time_water m w de az = some double.nan := by
  unfold bottom_time_water
  simp only [bottom_height_water, first_dot_full, first_normal] at hh hd
  simp only [gt_iff_lt, hh, if_true, hd]
  simp

/-- The first half of `bottom_reflection` for a ray above the bottom whose first
    `dot_full` is an exact value. -/
theorem bottom_time_water_val (m : reflection_model α) (w : wave_queue α) (de az : Nat) (d r : α)
    (hh : 0 < bottom_height_water m w de az)
    (hd : first_dot_full m w de az = double.val d)
    (hr : (first_normal m w de az).rho = double.val r) :
    bottom_time_water m w de az =
      if d ≥ 0 then none
      else some (double.val
        (min (max (-(bottom_height_water m w de az) * r / d) 0) w.time_step)) := by
  unfold bottom_time_water
  simp only [bottom_height_water, first_dot_full, first_normal] at hh hd hr ⊢
  simp only [gt_iff_lt, hh, if_true, hd]
  simp only [hr, double.ge_val_val, decide_eq_true_eq]
  by_cases h0 : d ≥ 0
  · simp [h0]
  · have hne : d ≠ 0 := fun e => h0 (by rw [e])
    rw [if_neg h0, if_neg h0, double.val_mul_val, double.val_div_val, if_neg hne, double_clamp_eq]

theorem bins_le_refl (a : List ℚ) : bins_le a a :=
  ⟨rfl, fun _ _ _ => le_refl _⟩

theorem bins_le_trans {a b c : List ℚ} (hab : bins_le a b) (hbc : bins_le b c) : bins_le a c :=
  ⟨hab.1.trans hbc.1, fun i h1 h3 =>
    le_trans (hab.2 i h1 (hab.1 ▸ h1)) (hbc.2 i (hab.1 ▸ h1) h3)⟩

/-- Adding a non-negative energy to one bin does not lower any bin. -/
theorem bins_le_add_energy (bin : Nat) (energy : ℚ) (henergy : 0 ≤ energy) (curve : List ℚ) :
    bins_le curve (add_energy bin energy curve) := by
  refine ⟨by simp [add_energy], ?_⟩
  intro i h1 h2
  simp only [add_energy, List.getElem_modify]
  split
  · linarith
  · exact le_refl _

/-- A fold of steps that do not lower any bin does not lower any bin. -/
theorem bins_le_foldl {α : Type} (f : List ℚ → α → List ℚ)
    (hf : ∀ curve x, bins_le curve (f curve x)) (l : List α) (curve : List ℚ) :
    bins_le curve (l.foldl f curve) := by
  induction l generalizing curve with
  | nil => exact bins_le_refl curve
  | cons x rest ih => exact bins_le_trans (hf curve x) (ih (f curve x))

/-- The convolution does not lower any bin when the contribution does not. -/
theorem bins_le_convolve {β : Type} (contribution : eigenverb → eigenverb → β → List ℚ → List ℚ)
    (hc : ∀ u v b curve, bins_le curve (contribution u v b curve))
    (max_time : ℚ) (set : List eigenverb) (boundary : β) (curve : List ℚ) :
    bins_le curve (convolve_eigenverbs contribution max_time set boundary curve) := by
  unfold convolve_eigenverbs
  apply bins_le_foldl
  intro curve u
  apply bins_le_foldl
  intro curve v
  simp only
  split
  · exact bins_le_refl curve
  · exact hc u v boundary curve

/-- The loop over the volume layers does not lower any bin when the convolution
    does not. -/
theorem bins_le_volume_pass {β : Type} (convolve : List eigenverb → β → List ℚ → List ℚ)
    (hc : ∀ set b curve, bins_le curve (convolve set b curve)) (getLayer : Nat → β) (n : Nat)
    (table : List (List eigenverb)) (layer : Nat) (curve : List ℚ) :
    bins_le curve (volume_pass convolve getLayer n table layer curve) := by
  induction table generalizing layer curve with
  | nil => exact bins_le_refl curve
  | cons k rest ih =>
    simp only [volume_pass]
    split
    · exact bins_le_trans (hc k (getLayer layer) curve) (ih (layer + 1) _)
    · exact bins_le_refl curve

/-- Bins above a floor stay above it in a curve that is nowhere lower. -/
theorem bins_le_floor {a b : List ℚ} (hab : bins_le a b) (floor : ℚ)
    (ha : ∀ x ∈ a, floor ≤ x) : ∀ y ∈ b, floor ≤ y := by
  intro y hy
  obtain ⟨i, hi, rfl⟩ := List.getElem_of_mem hy
  have hia : i < a.length := hab.1 ▸ hi
  exact le_trans (ha _ (List.getElem_mem hia)) (hab.2 i hia hi)

/-- With a NaN `time_water` the call returns true. -/
theorem bottom_reflection_nan (m : reflection_model α) (w : wave_queue α) (de az : Nat) (depth : α)
    (htw : bottom_time_water m w de az = some double.nan) :
    bottom_reflection m w de az depth
      = { returned := true, wave := w, reinit := [], reverb := [], not_a_number := true } := by
  unfold bottom_reflection
  simp only [htw]

/-- The return value of `bottom_reflection` in terms of its two tests. -/
theorem bottom_reflection_returned_iff (m : reflection_model α) (w : wave_queue α) (de az : Nat)
    (depth : α) :
    (bottom_reflection m w de az depth).returned = true ↔
      bottom_time_water m w de az = some double.nan
      ∨ ∃ tw, bottom_time_water m w de az = some (double.val tw)
          ∧ bottom_dot_full m w de az tw < 0 := by
  constructor
  · intro h
    cases htw : bottom_time_water m w de az with
    | none =>
      unfold bottom_reflection at h
      simp [htw] at h
    | some t =>
      cases t with
      | nan => exact Or.inl rfl
      | val tw =>
        obtain ⟨hd, _⟩ := bottom_reflection_true m w de az depth tw h htw
        exact Or.inr ⟨tw, rfl, hd⟩
  · rintro (hnan | ⟨tw, htw, hd⟩)
    · rw [bottom_reflection_nan m w de az depth hnan]
    · unfold bottom_reflection
      simp only [htw]
      have hd2 := hd
      simp only [bottom_dot_full] at hd2
      simp only [ge_iff_le, not_le.mpr hd2, if_false]

/-- Squared length of a vector divided by a scalar. -/
theorem norm2_div (v : wvector1 α) (N : α) :
    norm2 (⟨v.rho / N, v.theta / N, v.phi / N⟩ : wvector1 α) = norm2 v / (N * N) := by
  simp only [norm2]
  by_cases hN : N = 0
  · subst hN
    simp
  · field_simp

/-- Scalar product with a vector divided by a scalar. -/
theorem dot_div (n v : wvector1 α) (N : α) :
    dot n (⟨v.rho / N, v.theta / N, v.phi / N⟩ : wvector1 α) = dot n v / N := by
  simp only [dot]
  ring

/-- The reflected vector is `I - 2 (n . I) n`. -/
theorem bottom_reflected_eq (m : reflection_model α) (w : wave_queue α) (de az : Nat)
    (time_water : α) :
    bottom_dot_full m w de az time_water
        = dot (refined_normal m w de az time_water) (bottom_incident w de az time_water)
    ∧ bottom_reflected m w de az time_water
        = ⟨(bottom_incident w de az time_water).rho
              - 2 * dot (refined_normal m w de az time_water) (bottom_incident w de az time_water)
                * (refined_normal m w de az time_water).rho,
           (bottom_incident w de az time_water).theta
              - 2 * dot (refined_normal m w de az time_water) (bottom_incident w de az time_water)
                * (refined_normal m w de az time_water).theta,
           (bottom_incident w de az time_water).phi
              - 2 * dot (refined_normal m w de az time_water) (bottom_incident w de az time_water)
                * (refined_normal m w de az time_water).phi⟩ := by
  have hd : bottom_dot_full m w de az time_water
      = dot (refined_normal m w de az time_water) (bottom_incident w de az time_water) := by
    simp only [bottom_dot_full, dot, refined_normal, bottom_incident]
  refine ⟨hd, ?_⟩
  simp only [bottom_reflected, hd]
  simp only [bottom_incident, refined_normal]
  congr 1 <;> ring

/-- A vector with a non-zero scalar product with some vector has positive
    squared length. -/
theorem norm2_pos_of_dot_ne (n v : wvector1 α) (h : dot n v ≠ 0) : 0 < norm2 v := by
  by_contra hcon
  have h0 : norm2 v = 0 :=
    le_antisymm (not_lt.mp hcon)
      (by
        simp only [norm2]
        nlinarith [mul_self_nonneg v.rho, mul_self_nonneg v.theta, mul_self_nonneg v.phi])
  simp only [norm2] at h0
  have h1 : v.rho = 0 := by
    nlinarith [mul_self_nonneg v.rho, mul_self_nonneg v.theta, mul_self_nonneg v.phi]
  have h2 : v.theta = 0 := by
    nlinarith [mul_self_nonneg v.rho, mul_self_nonneg v.theta, mul_self_nonneg v.phi]
  have h3 : v.phi = 0 := by
    nlinarith [mul_self_nonneg v.rho, mul_self_nonneg v.theta, mul_self_nonneg v.phi]
  apply h
  simp [dot, h1, h2, h3]

/-- Every call of `reflection_reinit` recorded for `bottom_reflection` carries
    the `time_water` of the first half and the position and speed refined there. -/
theorem reinit_call_refined (m : reflection_model α) (w : wave_queue α) (de az : Nat) (depth : α)
    (call : reinit_call α) (hcall : call ∈ (bottom_reflection m w de az depth).reinit) :
    bottom_time_water m w de az = some (double.val call.time_water)
    ∧ (bottom_reflection m w de az depth).returned = true
    ∧ call.position = (collision_location w de az call.time_water).1
    ∧ call.speed = (collision_location w de az call.time_water).2.2 := by
  unfold bottom_reflection at hcall ⊢
  cases htw : bottom_time_water m w de az with
  | none => simp [htw] at hcall
  | some t =>
    cases t with
    | nan => simp [htw] at hcall
    | val tw =>
      simp only [htw] at hcall ⊢
      split at hcall
      · simp at hcall
      · rename_i hd
        simp only [List.mem_singleton] at hcall
        subst hcall
        simp only [if_neg hd]
        exact ⟨trivial, trivial, trivial, trivial⟩

/-- The call of `reflect_loss` made by a successful `bottom_reflection`. -/
theorem bottom_reflection_loss (m : reflection_model α) (w : wave_queue α) (de az : Nat)
    (depth time_water : α)
    (h : (bottom_reflection m w de az depth).returned = true)
    (htw : bottom_time_water m w de az = some (double.val time_water)) :
    (bottom_reflection m w de az depth).loss
      = [⟨(collision_location w de az time_water).1, bottom_grazing m w de az time_water⟩] := by
  obtain ⟨_, heq⟩ := bottom_reflection_true m w de az depth time_water h htw
  rw [heq]


/-- At `time_water` = 0 the refinement returns the curr values. -/
theorem collision_location_zero (w : wave_queue α) (de az : Nat) :
    collision_location w de az 0
      = ((w.curr de az).position, (w.curr de az).ndirection, (w.curr de az).sound_speed) := by
  simp [collision_location]

theorem table_grows_refl (t : List (List eigenverb)) : table_grows t t :=
  ⟨rfl, fun _ _ _ => ⟨[], List.append_nil _⟩⟩

/-- Appending to one collection of a table makes the table grow. -/
theorem table_grows_push_at (t t' : List (List eigenverb)) (k : Nat) (verb : eigenverb)
    (h : push_at t k verb = .ok t') : table_grows t t' := by
  unfold push_at at h
  split at h
  · rename_i hk
    have e : t.set k (t[k] ++ [verb]) = t' := by
      injection h
    subst e
    refine ⟨by simp, ?_⟩
    intro j h1 h2
    rw [List.getElem_set]
    split
    · rename_i hkj
      subst hkj
      exact ⟨[verb], rfl⟩
    · exact ⟨[], List.append_nil _⟩
  · exact absurd h (by simp)

/-- A fold of steps that keep a projection of the state keeps it. -/
theorem foldl_keeps {σ α γ : Type} (π : σ → γ) (f : σ → α → σ)
    (hf : ∀ s x, π (f s x) = π s) (l : List α) (s : σ) : π (l.foldl f s) = π s := by
  induction l generalizing s with
  | nil => rfl
  | cons x rest ih => rw [List.foldl_cons, ih, hf]

/-- The convolution keeps every projection of the state that the contribution
    keeps. -/
theorem convolve_keeps {σ β γ : Type} (π : σ → γ)
    (contribution : eigenverb → eigenverb → β → σ → σ)
    (hc : ∀ u v b s, π (contribution u v b s) = π s)
    (max_time : ℚ) (set : List eigenverb) (boundary : β) (s : σ) :
    π (convolve_eigenverbs contribution max_time set boundary s) = π s := by
  unfold convolve_eigenverbs
  apply foldl_keeps
  intro s u
  apply foldl_keeps
  intro s v
  simp only
  split
  · rfl
  · exact hc u v boundary s

/-- The loop over the volume layers keeps every projection of the state that
    the convolution keeps. -/
theorem volume_pass_keeps {σ β γ : Type} (π : σ → γ)
    (convolve : List eigenverb → β → σ → σ) (hc : ∀ set b s, π (convolve set b s) = π s)
    (getLayer : Nat → β) (n : Nat) (table : List (List eigenverb)) (layer : Nat) (s : σ) :
    π (volume_pass convolve getLayer n table layer s) = π s := by
  induction table generalizing layer s with
  | nil => rfl
  | cons k rest ih =>
    simp only [volume_pass]
    split
    · rw [ih, hc]
    · rfl

/-- Effect of one query entry on `source_ids`, when the identifier of the entry
    is not yet in `source_ids`. -/
theorem find_pairs_step_sources (src_list rcv_list : Finset Int) (ids : Finset Int × Finset Int)
    (p : Int × xmitRcvModeType) (hfresh : p.1 ∉ ids.1) (id : Int) :
    id ∈ (find_pairs_step src_list rcv_list ids p).1 ↔
      id ∈ ids.1 ∨ (id = p.1 ∧ ((p.2 = xmitRcvModeType.SOURCE ∧ id ∈ src_list)
        ∨ (p.2 = xmitRcvModeType.BOTH ∧ id ∈ src_list ∧ id ∈ rcv_list))) := by
  obtain ⟨pid, mode⟩ := p
  simp only at hfresh
  cases mode with
  | NONE => simp [find_pairs_step]
  | RECEIVER =>
    by_cases hr : pid ∈ rcv_list <;> simp [find_pairs_step, hr]
  | SOURCE =>
    by_cases hs : pid ∈ src_list
    · simp only [find_pairs_step, hs, if_true, Finset.mem_insert]
      constructor
      · rintro (h | h)
        · subst h
          exact Or.inr ⟨rfl, Or.inl ⟨trivial, hs⟩⟩
        · exact Or.inl h
      · rintro (h | ⟨h, _⟩)
        · exact Or.inr h
        · exact Or.inl h
    · simp only [find_pairs_step, hs, if_false]
      constructor
      · exact fun h => Or.inl h
      · rintro (h | ⟨h, h2⟩)
        · exact h
        · subst h
          rcases h2 with ⟨_, h3⟩ | ⟨h3, _⟩
          · exact absurd h3 hs
          · exact absurd h3 (by simp)
  | BOTH =>
    by_cases hs : pid ∈ src_list
    · by_cases hr : pid ∈ rcv_list
      · simp only [find_pairs_step, hs, hr, if_true, Finset.mem_insert]
        constructor
        · rintro (h | h)
          · subst h
            exact Or.inr ⟨rfl, Or.inr ⟨trivial, hs, hr⟩⟩
          · exact Or.inl h
        · rintro (h | ⟨h, _⟩)
          · exact Or.inr h
          · exact Or.inl h
      · simp only [find_pairs_step, hs, hr, if_true, if_false, Finset.erase_insert hfresh]
        constructor
        · exact fun h => Or.inl h
        · rintro (h | ⟨h, h2⟩)
          · exact h
          · subst h
            rcases h2 with ⟨h3, _⟩ | ⟨_, _, h3⟩
            · exact absurd h3 (by simp)
            · exact absurd h3 hr
    · simp only [find_pairs_step, hs, if_false]
      constructor
      · exact fun h => Or.inl h
      · rintro (h | ⟨h, h2⟩)
        · exact h
        · subst h
          rcases h2 with ⟨h3, _⟩ | ⟨_, h3, _⟩
          · exact absurd h3 (by simp)
          · exact absurd h3 hs

/-- Effect of one query entry on `receiver_ids`. -/
theorem find_pairs_step_receivers (src_list rcv_list : Finset Int)
    (ids : Finset Int × Finset Int) (p : Int × xmitRcvModeType) (id : Int) :
    id ∈ (find_pairs_step src_list rcv_list ids p).2 ↔
      id ∈ ids.2 ∨ (id = p.1 ∧ ((p.2 = xmitRcvModeType.RECEIVER ∧ id ∈ rcv_list)
        ∨ (p.2 = xmitRcvModeType.BOTH ∧ id ∈ src_list ∧ id ∈ rcv_list))) := by
  obtain ⟨pid, mode⟩ := p
  cases mode with
  | NONE => simp [find_pairs_step]
  | SOURCE =>
    by_cases hs : pid ∈ src_list <;> simp [find_pairs_step, hs]
  | RECEIVER =>
    by_cases hr : pid ∈ rcv_list
    · simp only [find_pairs_step, hr, if_true, Finset.mem_insert]
      constructor
      · rintro (h | h)
        · subst h
          exact Or.inr ⟨rfl, Or.inl ⟨trivial, hr⟩⟩
        · exact Or.inl h
      · rintro (h | ⟨h, _⟩)
        · exact Or.inr h
        · exact Or.inl h
    · simp only [find_pairs_step, hr, if_false]
      constructor
      · exact fun h => Or.inl h
      · rintro (h | ⟨h, h2⟩)
        · exact h
        · subst h
          rcases h2 with ⟨_, h3⟩ | ⟨h3, _⟩
          · exact absurd h3 hr
          · exact absurd h3 (by simp)
  | BOTH =>
    by_cases hs : pid ∈ src_list
    · by_cases hr : pid ∈ rcv_list
      · simp only [find_pairs_step, hs, hr, if_true, Finset.mem_insert]
        constructor
        · rintro (h | h)
          · subst h
            exact Or.inr ⟨rfl, Or.inr ⟨trivial, hs, hr⟩⟩
          · exact Or.inl h
        · rintro (h | ⟨h, _⟩)
          · exact Or.inr h
          · exact Or.inl h
      · simp only [find_pairs_step, hs, hr, if_true, if_false]
        constructor
        · exact fun h => Or.inl h
        · rintro (h | ⟨h, h2⟩)
          · exact h
          · subst h
            rcases h2 with ⟨h3, _⟩ | ⟨_, _, h3⟩
            · exact absurd h3 (by simp)
            · exact absurd h3 hr
    · simp only [find_pairs_step, hs, if_false]
      constructor
      · exact fun h => Or.inl h
      · rintro (h | ⟨h, h2⟩)
        · exact h
        · subst h
          rcases h2 with ⟨h3, _⟩ | ⟨_, h3, _⟩
          · exact absurd h3 (by simp)
          · exact absurd h3 hs

/-- In a query with unique identifiers an identifier has one mode. -/
theorem query_mode_unique (l : sensor_query_map) (hnd : (l.map Prod.fst).Nodup) (id : Int)
    (m1 m2 : xmitRcvModeType) (h1 : (id, m1) ∈ l) (h2 : (id, m2) ∈ l) : m1 = m2 := by
  induction l with
  | nil => simp at h1
  | cons p rest ih =>
    simp only [List.map_cons, List.nodup_cons] at hnd
    rcases List.mem_cons.mp h1 with e1 | e1
    · rcases List.mem_cons.mp h2 with e2 | e2
      · rw [← e1] at e2
        exact ((Prod.mk.injEq _ _ _ _).mp e2).2.symm
      · exfalso
        apply hnd.1
        rw [← e1]
        exact List.mem_map.mpr ⟨(id, m2), e2, rfl⟩
    · rcases List.mem_cons.mp h2 with e2 | e2
      · exfalso
        apply hnd.1
        rw [← e2]
        exact List.mem_map.mpr ⟨(id, m1), e1, rfl⟩
      · exact ih hnd.2 e1 e2

/-- The identifiers in `source_ids` after the first loop of `find_pairs` over a
    query with unique identifiers. -/
theorem find_pairs_sources (src_list rcv_list : Finset Int) (l : sensor_query_map)
    (ids : Finset Int × Finset Int) (hnd : (l.map Prod.fst).Nodup)
    (hfresh : ∀ p ∈ l, p.1 ∉ ids.1) (id : Int) :
    id ∈ (l.foldl (find_pairs_step src_list rcv_list) ids).1 ↔
      id ∈ ids.1 ∨ ((id, xmitRcvModeType.SOURCE) ∈ l ∧ id ∈ src_list)
        ∨ ((id, xmitRcvModeType.BOTH) ∈ l ∧ id ∈ src_list ∧ id ∈ rcv_list) := by
  induction l generalizing ids with
  | nil => simp
  | cons p rest ih =>
    simp only [List.map_cons, List.nodup_cons] at hnd
    have hp : p.1 ∉ ids.1 := hfresh p (List.mem_cons_self _ _)
    have hfresh2 : ∀ q ∈ rest, q.1 ∉ (find_pairs_step src_list rcv_list ids p).1 := by
      intro q hq hmem
      rcases (find_pairs_step_sources src_list rcv_list ids p hp q.1).mp hmem with h | ⟨h, _⟩
      · exact hfresh q (List.mem_cons_of_mem _ hq) h
      · apply hnd.1
        rw [← h]
        exact List.mem_map.mpr ⟨q, hq, rfl⟩
    rw [List.foldl_cons, ih _ hnd.2 hfresh2, find_pairs_step_sources _ _ _ _ hp]
    obtain ⟨pid, mode⟩ := p
    simp only [List.mem_cons, Prod.mk.injEq]
    constructor
    · rintro ((h | ⟨h, h2⟩) | h | h)
      · exact Or.inl h
      · rcases h2 with ⟨hm, hs⟩ | ⟨hm, hs, hr⟩
        · exact Or.inr (Or.inl ⟨Or.inl ⟨h, hm.symm⟩, hs⟩)
        · exact Or.inr (Or.inr ⟨Or.inl ⟨h, hm.symm⟩, hs, hr⟩)
      · exact Or.inr (Or.inl ⟨Or.inr h.1, h.2⟩)
      · exact Or.inr (Or.inr ⟨Or.inr h.1, h.2⟩)
    · rintro (h | ⟨h | h, hs⟩ | ⟨h | h, hs⟩)
      · exact Or.inl (Or.inl h)
      · exact Or.inl (Or.inr ⟨h.1, Or.inl ⟨h.2.symm, hs⟩⟩)
      · exact Or.inr (Or.inl ⟨h, hs⟩)
      · exact Or.inl (Or.inr ⟨h.1, Or.inr ⟨h.2.symm, hs⟩⟩)
      · exact Or.inr (Or.inr ⟨h, hs⟩)

/-- The identifiers in `receiver_ids` after the first loop of `find_pairs`. -/
theorem find_pairs_receivers (src_list rcv_list : Finset Int) (l : sensor_query_map)
    (ids : Finset Int × Finset Int) (id : Int) :
    id ∈ (l.foldl (find_pairs_step src_list rcv_list) ids).2 ↔
      id ∈ ids.2 ∨ ((id, xmitRcvModeType.RECEIVER) ∈ l ∧ id ∈ rcv_list)
        ∨ ((id, xmitRcvModeType.BOTH) ∈ l ∧ id ∈ src_list ∧ id ∈ rcv_list) := by
  induction l generalizing ids with
  | nil => simp
  | cons p rest ih =>
    rw [List.foldl_cons, ih, find_pairs_step_receivers]
    obtain ⟨pid, mode⟩ := p
    simp only [List.mem_cons, Prod.mk.injEq]
    constructor
    · rintro ((h | ⟨h, h2⟩) | h | h)
      · exact Or.inl h
      · rcases h2 with ⟨hm, hs⟩ | ⟨hm, hs, hr⟩
        · exact Or.inr (Or.inl ⟨Or.inl ⟨h, hm.symm⟩, hs⟩)
        · exact Or.inr (Or.inr ⟨Or.inl ⟨h, hm.symm⟩, hs, hr⟩)
      · exact Or.inr (Or.inl ⟨Or.inr h.1, h.2⟩)
      · exact Or.inr (Or.inr ⟨Or.inr h.1, h.2⟩)
    · rintro (h | ⟨h | h, hs⟩ | ⟨h | h, hs⟩)
      · exact Or.inl (Or.inl h)
      · exact Or.inl (Or.inr ⟨h.1, Or.inl ⟨h.2.symm, hs⟩⟩)
      · exact Or.inr (Or.inl ⟨h, hs⟩)
      · exact Or.inl (Or.inr ⟨h.1, Or.inr ⟨h.2.symm, hs⟩⟩)
      · exact Or.inr (Or.inr ⟨h, hs⟩)

/-- The keys inserted by the inner loop of `build_hash_keys`. -/
theorem mem_insert_keys {κ : Type} [DecidableEq κ] (generate_hash_key : Int → Int → κ)
    (srcID : Int) (l : List Int) (init : Finset κ) (key : κ) :
    key ∈ l.foldl (fun hash_keys rcvID => insert (generate_hash_key srcID rcvID) hash_keys) init
      ↔ key ∈ init ∨ ∃ r ∈ l, key = generate_hash_key srcID r := by
  induction l generalizing init with
  | nil => simp
  | cons r rest ih =>
    rw [List.foldl_cons, ih, Finset.mem_insert]
    constructor
    · rintro ((h | h) | ⟨x, hx, h⟩)
      · exact Or.inr ⟨r, List.mem_cons_self _ _, h⟩
      · exact Or.inl h
      · exact Or.inr ⟨x, List.mem_cons_of_mem _ hx, h⟩
    · rintro (h | ⟨x, hx, h⟩)
      · exact Or.inl (Or.inr h)
      · rcases List.mem_cons.mp hx with e | e
        · subst e
          exact Or.inl (Or.inl h)
        · exact Or.inr ⟨x, e, h⟩

/-- The keys inserted by the two loops of `build_hash_keys` over lists. -/
theorem mem_insert_all_keys {κ : Type} [DecidableEq κ] (generate_hash_key : Int → Int → κ)
    (l1 l2 : List Int) (init : Finset κ) (key : κ) :
    key ∈ l1.foldl
        (fun hash_keys srcID =>
          l2.foldl (fun hash_keys rcvID => insert (generate_hash_key srcID rcvID) hash_keys)
            hash_keys) init
      ↔ key ∈ init ∨ ∃ s ∈ l1, ∃ r ∈ l2, key = generate_hash_key s r := by
  induction l1 generalizing init with
  | nil => simp
  | cons s rest ih =>
    rw [List.foldl_cons, ih, mem_insert_keys]
    constructor
    · rintro ((h | ⟨r, hr, h⟩) | ⟨x, hx, h⟩)
      · exact Or.inl h
      · exact Or.inr ⟨s, List.mem_cons_self _ _, r, hr, h⟩
      · exact Or.inr ⟨x, List.mem_cons_of_mem _ hx, h⟩
    · rintro (h | ⟨x, hx, h⟩)
      · exact Or.inl (Or.inl h)
      · rcases List.mem_cons.mp hx with e | e
        · subst e
          exact Or.inl (Or.inr h)
        · exact Or.inr ⟨x, e, h⟩

/-- The keys built from a set of source and a set of receiver identifiers. -/
theorem mem_build_hash_keys {κ : Type} [DecidableEq κ] (generate_hash_key : Int → Int → κ)
    (source_ids receiver_ids : Finset Int) (key : κ) :
    key ∈ build_hash_keys generate_hash_key source_ids receiver_ids
      ↔ ∃ s ∈ source_ids, ∃ r ∈ receiver_ids, key = generate_hash_key s r := by
  unfold build_hash_keys
  rw [mem_insert_all_keys]
  simp only [Finset.not_mem_empty, false_or, Finset.mem_sort]

/-- A vector different from zero has positive squared length. -/
theorem norm2_pos_of_ne (v : wvector1 α) (h : v ≠ ⟨0, 0, 0⟩) : 0 < norm2 v := by
  by_contra hcon
  have h0 : norm2 v = 0 :=
    le_antisymm (not_lt.mp hcon)
      (by
        simp only [norm2]
        nlinarith [mul_self_nonneg v.rho, mul_self_nonneg v.theta, mul_self_nonneg v.phi])
  simp only [norm2] at h0
  have h1 : v.rho = 0 := by
    nlinarith [mul_self_nonneg v.rho, mul_self_nonneg v.theta, mul_self_nonneg v.phi]
  have h2 : v.theta = 0 := by
    nlinarith [mul_self_nonneg v.rho, mul_self_nonneg v.theta, mul_self_nonneg v.phi]
  have h3 : v.phi = 0 := by
    nlinarith [mul_self_nonneg v.rho, mul_self_nonneg v.theta, mul_self_nonneg v.phi]
  apply h
  cases v
  simp only at h1 h2 h3
  rw [h1, h2, h3]

/-- A non-zero vector divided by its length times `c > 0` has the squared
    length `(1/c)^2` and the length `1/c`. -/
theorem norm2_normalised (v : wvector1 ℝ) (c : ℝ) (hv : v ≠ ⟨0, 0, 0⟩) (hc : 0 < c) :
    norm2 (⟨v.rho / (Real.sqrt (norm2 v) * c), v.theta / (Real.sqrt (norm2 v) * c),
        v.phi / (Real.sqrt (norm2 v) * c)⟩ : wvector1 ℝ) = (1 / c) ^ 2
    ∧ Real.sqrt (norm2 (⟨v.rho / (Real.sqrt (norm2 v) * c), v.theta / (Real.sqrt (norm2 v) * c),
        v.phi / (Real.sqrt (norm2 v) * c)⟩ : wvector1 ℝ)) = 1 / c := by
  have hpos : 0 < norm2 v := norm2_pos_of_ne v hv
  have hs : Real.sqrt (norm2 v) * Real.sqrt (norm2 v) = norm2 v :=
    Real.mul_self_sqrt (le_of_lt hpos)
  have hc0 : c ≠ 0 := ne_of_gt hc
  have h1 : norm2 (⟨v.rho / (Real.sqrt (norm2 v) * c), v.theta / (Real.sqrt (norm2 v) * c),
        v.phi / (Real.sqrt (norm2 v) * c)⟩ : wvector1 ℝ) = (1 / c) ^ 2 := by
    rw [norm2_div]
    have e : Real.sqrt (norm2 v) * c * (Real.sqrt (norm2 v) * c)
        = norm2 v * (c * c) := by
      have e1 : ∀ a b : ℝ, a * b * (a * b) = a * a * (b * b) := by
        intro a b
        ring
      rw [e1, hs]
    rw [e, div_mul_eq_div_div, div_self (ne_of_gt hpos), one_div, one_div, inv_pow, pow_two]
  refine ⟨h1, ?_⟩
  rw [h1]
  exact Real.sqrt_sq (le_of_lt (one_div_pos.mpr hc))

/-- On the oblique ray the time to the bottom is clamped to the time step. -/
theorem oblique_time_water (sqrt : α → α) :
    bottom_time_water (plain_model sqrt) oblique_wave 0 0 = some (double.val 1) := by
  norm_num [bottom_time_water, shallow_guard, plain_model, flat_boundary, oblique_wave,
    sample_wave, uniform_front]

/-- The refined point of the oblique ray. -/
theorem oblique_location :
    collision_location (oblique_wave : wave_queue α) 0 0 1
      = (⟨5010, 0, 0⟩, ⟨-1/4, 1/4, 0⟩, 2) := by
  norm_num [collision_location, oblique_wave, sample_wave, uniform_front]

/-- The oblique ray is reflected by the bottom. -/
theorem oblique_returned (sqrt : α → α) :
    (bottom_reflection (plain_model sqrt) oblique_wave 0 0 1000).returned = true := by
  unfold bottom_reflection
  rw [oblique_time_water]
  simp only [oblique_location]
  norm_num [plain_model, flat_boundary]

/-- The reflected vector of the oblique ray. -/
theorem oblique_reflected (sqrt : α → α) :
    bottom_reflected (plain_model sqrt) oblique_wave 0 0 1 = ⟨1, 1, 0⟩ := by
  simp only [bottom_reflected, bottom_dot_full, oblique_location]
  norm_num [plain_model, flat_boundary]

/-- Over the level shallow bottom the guard divides 0.0 by 0.0. -/
theorem reef_first_normal :
    first_normal reef_model shallow_wave 0 0 = ⟨double.val 0, double.nan, double.nan⟩ := by
  norm_num [first_normal, shallow_guard, reef_model, sample_model, flat_boundary]

/-- Over the level shallow bottom the first `dot_full` is NaN. -/
theorem reef_first_dot_full : first_dot_full reef_model shallow_wave 0 0 = double.nan := by
  simp only [first_dot_full, reef_first_normal]
  simp

/-- The ray is 10 above the level shallow bottom. -/
theorem reef_height_water : bottom_height_water reef_model shallow_wave 0 0 = 10 := by
  norm_num [bottom_height_water, reef_model, sample_model, flat_boundary, shallow_wave,
    sample_wave, uniform_front]

/-- Over the level shallow bottom `time_water` is NaN. -/
theorem reef_time_water : bottom_time_water reef_model shallow_wave 0 0 = some double.nan :=
  bottom_time_water_nan reef_model shallow_wave 0 0 (by rw [reef_height_water]; norm_num)
    reef_first_dot_full

/-- In shallow water, for a normal whose `theta` and `phi` are not both zero,
    the guarded normal and the first `dot_full` are exact values. -/
theorem shallow_first_dot_full (m : reflection_model α) (w : wave_queue α) (de az : Nat)
    (hsh : m.earth_radius - (m.bottom.height (w.curr de az).position).1 < m.TOO_SHALLOW)
    (hN : (m.bottom.height (w.curr de az).position).2.theta
        * (m.bottom.height (w.curr de az).position).2.theta
      + (m.bottom.height (w.curr de az).position).2.phi
        * (m.bottom.height (w.curr de az).position).2.phi ≠ 0) :
    (first_normal m w de az).rho = double.val 0
    ∧ ∃ d, first_dot_full m w de az = double.val d := by
  have hn : first_normal m w de az
      = ⟨double.val 0,
         double.val ((m.bottom.height (w.curr de az).position).2.theta
          / ((m.bottom.height (w.curr de az).position).2.theta
              * (m.bottom.height (w.curr de az).position).2.theta
            + (m.bottom.height (w.curr de az).position).2.phi
              * (m.bottom.height (w.curr de az).position).2.phi)),
         double.val ((m.bottom.height (w.curr de az).position).2.phi
          / ((m.bottom.height (w.curr de az).position).2.theta
              * (m.bottom.height (w.curr de az).position).2.theta
            + (m.bottom.height (w.curr de az).position).2.phi
              * (m.bottom.height (w.curr de az).position).2.phi))⟩ := by
    simp only [first_normal, shallow_guard, hsh, if_true, double.val_div_val, if_neg hN]
  refine ⟨by rw [hn], ?_⟩
  simp only [first_dot_full, hn, double.val_mul_val, double.val_add_val]
  exact ⟨_, rfl⟩

/-- The vertical ray reaches the sample bottom after half a time step. -/
theorem steep_time_water :
    bottom_time_water sample_model steep_wave 0 0 = some (double.val (1/2)) := by
  norm_num [bottom_time_water, shallow_guard, sample_model, flat_boundary, steep_wave,
    uniform_front]

/-- The refined point of the vertical ray. -/
theorem steep_location :
    collision_location steep_wave 0 0 (1/2)
      = (⟨5755, 0, 0⟩, ⟨-9180801/13817104000, 0, 0⟩, 1505) := by
  norm_num [collision_location, steep_wave, uniform_front]

/-- The second `dot_full` of the vertical ray. -/
theorem steep_dot_full :
    bottom_dot_full sample_model steep_wave 0 0 (1/2) = -(1505 * 9180801 / 9180800) := by
  simp only [bottom_dot_full, steep_location]
  norm_num [sample_model, flat_boundary]

/-- The vertical ray is reflected by the bottom. -/
theorem steep_returned :
    (bottom_reflection sample_model steep_wave 0 0 1000).returned = true := by
  refine (bottom_reflection_returned_iff sample_model steep_wave 0 0 1000).mpr
    (Or.inr ⟨1/2, steep_time_water, ?_⟩)
  rw [steep_dot_full]
  norm_num

/-- A `time_water` that is an exact value lies in `[0, dt]` for `dt ≥ 0`. -/
theorem bottom_time_water_clamped (m : reflection_model α) (w : wave_queue α) (de az : Nat)
    (hdt : 0 ≤ w.time_step) (tw : α)
    (htw : bottom_time_water m w de az = some (double.val tw)) :
    0 ≤ tw ∧ tw ≤ w.time_step := by
  by_cases hh : 0 < bottom_height_water m w de az
  · cases hd : first_dot_full m w de az with
    | nan =>
      rw [bottom_time_water_nan m w de az hh hd] at htw
      exact double.noConfusion (Option.some.inj htw)
    | val d =>
      rw [bottom_time_water_val m w de az d _ hh hd (first_normal_rho m w de az)] at htw
      by_cases h0 : d ≥ 0
      · rw [if_pos h0] at htw
        exact Option.noConfusion htw
      · rw [if_neg h0] at htw
        have e := double.val.inj (Option.some.inj htw)
        rw [← e]
        exact ⟨le_min (le_max_right _ _) hdt, min_le_right _ _⟩
  · rw [bottom_time_water_low m w de az (not_lt.mp hh)] at htw
    have e := double.val.inj (Option.some.inj htw)
    rw [← e]
    exact ⟨le_refl _, hdt⟩

/-- The attenuation that a successful `bottom_reflection` leaves in cell
    (de, az) of the next snapshot. -/
theorem bottom_reflection_attenuation (m : reflection_model α) (w : wave_queue α) (de az : Nat)
    (depth time_water : α)
    (h : (bottom_reflection m w de az depth).returned = true)
    (htw : bottom_time_water m w de az = some (double.val time_water))
    (f : Nat) (hf : f < w.frequencies.length) :
    ((bottom_reflection m w de az depth).wave.next de az).attenuation f
      = (w.next de az).attenuation f + (bottom_loss m w de az time_water).1 f := by
  obtain ⟨_, heq⟩ := bottom_reflection_true m w de az depth time_water h htw
  rw [heq]
  simp only
  rw [(reinit_after_set_loss m w de az _ _ _ _ _ de az).1]
  simp [add_bottom_loss_attenuation, hf, bottom_loss]

/-! ## Theorems -/

/-- C3: for every cell, every `time_water` and every time step different from
    zero, `collision_location` returns, for the sound speed, the three position
    components and the three direction components, the value
    `curr + ((next - prev)/(2 dt)) time_water + 1/2 ((next + prev - 2 curr)/dt^2) time_water^2`
    of that quantity. -/
theorem collision_location_taylor (w : wave_queue α) (de az : Nat) (time_water : α)
    (hdt : w.time_step ≠ 0) :
    (collision_location w de az time_water).2.2
        = taylor2 (w.prev de az).sound_speed (w.curr de az).sound_speed
            (w.next de az).sound_speed w.time_step time_water
    ∧ (collision_location w de az time_water).1.rho
        = taylor2 (w.prev de az).position.rho (w.curr de az).position.rho
            (w.next de az).position.rho w.time_step time_water
    ∧ (collision_location w de az time_water).1.theta
        = taylor2 (w.prev de az).position.theta (w.curr de az).position.theta
            (w.next de az).position.theta w.time_step time_water
    ∧ (collision_location w de az time_water).1.phi
        = taylor2 (w.prev de az).position.phi (w.curr de az).position.phi
            (w.next de az).position.phi w.time_step time_water
    ∧ (collision_location w de az time_water).2.1.rho
        = taylor2 (w.prev de az).ndirection.rho (w.curr de az).ndirection.rho
            (w.next de az).ndirection.rho w.time_step time_water
    ∧ (collision_location w de az time_water).2.1.theta
        = taylor2 (w.prev de az).ndirection.theta (w.curr de az).ndirection.theta
            (w.next de az).ndirection.theta w.time_step time_water
    ∧ (collision_location w de az time_water).2.1.phi
        = taylor2 (w.prev de az).ndirection.phi (w.curr de az).ndirection.phi
            (w.next de az).ndirection.phi w.time_step time_water := by
  have _ := hdt
  simp [collision_location, taylor2, pow_two]

/-- Witness of C3 on the marching wave at `time_water` = 1/4. -/
theorem collision_location_taylor_witness :
    marching_wave.time_step ≠ 0
    ∧ (collision_location marching_wave 0 0 (1/4)).2.2 = 43/8
    ∧ (collision_location marching_wave 0 0 (1/4)).1.rho = 25/8 := by
  have h : marching_wave.time_step ≠ 0 := by norm_num [marching_wave]
  have t := collision_location_taylor marching_wave 0 0 (1/4) h
  refine ⟨h, ?_, ?_⟩
  · rw [t.1]; norm_num [taylor2, marching_wave, uniform_front]
  · rw [t.2.1]; norm_num [taylor2, marching_wave, uniform_front]

/-- C1: whenever `bottom_reflection` or `surface_reflection` returns false, the
    wave (all four snapshots with the attenuation and phase of every cell) is
    the wave before the call and `reflection_reinit` was not called. -/
theorem near_miss_atomic (m : reflection_model α) (w : wave_queue α) (de az : Nat) (depth : α) :
    ((bottom_reflection m w de az depth).returned = false →
      (bottom_reflection m w de az depth).wave = w
      ∧ (bottom_reflection m w de az depth).reinit = [])
    ∧ ((surface_reflection m w de az).returned = false →
      (surface_reflection m w de az).wave = w
      ∧ (surface_reflection m w de az).reinit = []) := by
  constructor
  · intro h
    unfold bottom_reflection at h ⊢
    cases htw : bottom_time_water m w de az with
    | none => simp
    | some t =>
      cases t with
      | nan => simp [htw] at h
      | val tw =>
        simp only [htw] at h ⊢
        split at h
        · rename_i hd
          simp only [if_pos hd, and_self]
        · simp at h
  · intro h
    unfold surface_reflection at h ⊢
    by_cases hg : surface_grazing m w de az ≤ 0
    · simp [hg]
    · simp [hg] at h

/-- Witness of C1: the horizontal ray misses the bottom and the surface. -/
theorem near_miss_atomic_witness :
    ((bottom_reflection sample_model level_wave 0 0 1000).returned = false
      ∧ (bottom_reflection sample_model level_wave 0 0 1000).wave = level_wave
      ∧ (bottom_reflection sample_model level_wave 0 0 1000).reinit = [])
    ∧ ((surface_reflection sample_model level_wave 0 0).returned = false
      ∧ (surface_reflection sample_model level_wave 0 0).wave = level_wave
      ∧ (surface_reflection sample_model level_wave 0 0).reinit = []) :=
  ⟨⟨level_bottom_returned,
      (near_miss_atomic sample_model level_wave 0 0 1000).1 level_bottom_returned⟩,
    ⟨level_surface_returned,
      (near_miss_atomic sample_model level_wave 0 0 1000).2 level_surface_returned⟩⟩

/-- C5: when `surface_reflection` returns true, at every frequency index the
    attenuation of cell (de, az) of the next snapshot grows by the amplitude
    returned by the surface's `reflect_loss`, and its phase is its previous value
    minus `M_PI`: a shift of magnitude `M_PI` in which nothing reported by the
    boundary appears. -/
theorem surface_reflection_adds_loss (m : reflection_model α) (w : wave_queue α) (de az : Nat)
    (h : (surface_reflection m w de az).returned = true) :
    ∀ f, f < w.frequencies.length →
      ((surface_reflection m w de az).wave.next de az).attenuation f
          = (w.next de az).attenuation f + surface_loss m w de az f
      ∧ ((surface_reflection m w de az).wave.next de az).phase f
          = (w.next de az).phase f - M_PI
      ∧ |((surface_reflection m w de az).wave.next de az).phase f - (w.next de az).phase f|
          = M_PI := by
  intro f hf
  obtain ⟨_, heq⟩ := surface_reflection_true m w de az h
  rw [heq]
  simp only
  have hpi : (0 : α) < M_PI := by norm_num [M_PI]
  refine ⟨?_, ?_, ?_⟩
  · rw [(reinit_after_set_loss m w de az _ _ _ _ _ de az).1]
    simp [add_surface_loss_attenuation, hf]
  · rw [(reinit_after_set_loss m w de az _ _ _ _ _ de az).2]
    simp [add_surface_loss_phase, hf]
  · rw [(reinit_after_set_loss m w de az _ _ _ _ _ de az).2]
    simp only [and_self, if_true, add_surface_loss_phase, hf]
    rw [sub_sub_cancel_left, abs_neg, abs_of_pos hpi]

/-- Witness of C5: the rising ray takes a loss of 2 from the sample surface and
    its phase goes from 0 to `-M_PI`. -/
theorem surface_reflection_adds_loss_witness :
    (surface_reflection sample_model rising_wave 0 0).returned = true
    ∧ ((surface_reflection sample_model rising_wave 0 0).wave.next 0 0).attenuation 0 = 2
    ∧ ((surface_reflection sample_model rising_wave 0 0).wave.next 0 0).phase 0 = -M_PI := by
  have t := surface_reflection_adds_loss sample_model rising_wave 0 0 rising_returned 0
    (by simp [rising_wave, sample_wave])
  refine ⟨rising_returned, ?_, ?_⟩
  · rw [t.1]
    norm_num [rising_wave, sample_wave, uniform_front, surface_loss, sample_model,
      flat_boundary]
  · rw [t.2.1]
    norm_num [rising_wave, sample_wave, uniform_front]

/-- C7: when `surface_reflection` returns true, `reflection_reinit` is called
    once, with the position and speed refined by `collision_location` at
    `time_water` and with the refined direction whose radial component alone is
    negated. -/
theorem surface_reflection_negates_rho (m : reflection_model α) (w : wave_queue α) (de az : Nat)
    (h : (surface_reflection m w de az).returned = true) :
    (surface_reflection m w de az).reinit =
      [{ de := de, az := az, time_water := surface_time_water m w de az
         position := (collision_location w de az (surface_time_water m w de az)).1
         ndirection :=
           ⟨-(collision_location w de az (surface_time_water m w de az)).2.1.rho,
            (collision_location w de az (surface_time_water m w de az)).2.1.theta,
            (collision_location w de az (surface_time_water m w de az)).2.1.phi⟩
         speed := (collision_location w de az (surface_time_water m w de az)).2.2 }] := by
  obtain ⟨_, heq⟩ := surface_reflection_true m w de az h
  rw [heq]

/-- Witness of C7: the rising ray (3/10, 2/5, 0) at radius 5990 is handed to
    the reinitialiser with direction (-3/10, 2/5, 0) at `time_water` = 25/3. -/
theorem surface_reflection_negates_rho_witness :
    (surface_reflection sample_model rising_wave 0 0).returned = true
    ∧ (surface_reflection sample_model rising_wave 0 0).reinit =
      [⟨0, 0, 25/3, ⟨5990, 0, 0⟩, ⟨-3/10, 2/5, 0⟩, 2⟩] := by
  refine ⟨rising_returned, ?_⟩
  rw [surface_reflection_negates_rho sample_model rising_wave 0 0 rising_returned]
  norm_num [surface_time_water, altitude, collision_location, sample_model, rising_wave,
    sample_wave, uniform_front]

/-- C8: `surface_reflection` returns false exactly when the grazing angle
    `atan2(rho, sqrt(theta^2 + phi^2))` of the current direction is at most zero;
    for a math library whose square root is non-negative and whose `atan2 y x`
    has the sign of `y` when `x ≥ 0`, that is exactly when the radial component
    is at most zero; a ray with zero radial component has grazing angle 0, the
    call returns false and the wave (phase included) is left as it was. -/
theorem surface_near_miss_iff (m : reflection_model α) (w : wave_queue α) (de az : Nat)
    (hsqrt : ∀ x, 0 ≤ x → 0 ≤ m.math.sqrt x)
    (hatan : ∀ y x, 0 ≤ x → (m.math.atan2 y x ≤ 0 ↔ y ≤ 0))
    (hzero : ∀ x, 0 ≤ x → m.math.atan2 0 x = 0) :
    ((surface_reflection m w de az).returned = false ↔ surface_grazing m w de az ≤ 0)
    ∧ (surface_grazing m w de az ≤ 0 ↔ (w.curr de az).ndirection.rho ≤ 0)
    ∧ ((w.curr de az).ndirection.rho = 0 →
        surface_grazing m w de az = 0
        ∧ (surface_reflection m w de az).returned = false
        ∧ (surface_reflection m w de az).wave = w) := by
  have hx : 0 ≤ m.math.sqrt ((w.curr de az).ndirection.theta * (w.curr de az).ndirection.theta
      + (w.curr de az).ndirection.phi * (w.curr de az).ndirection.phi) :=
    hsqrt _ (add_nonneg (mul_self_nonneg _) (mul_self_nonneg _))
  have hret : (surface_reflection m w de az).returned = false ↔ surface_grazing m w de az ≤ 0 := by
    unfold surface_reflection
    by_cases hg : surface_grazing m w de az ≤ 0
    · simp [hg]
    · simp [hg]
  refine ⟨hret, ?_, ?_⟩
  · unfold surface_grazing
    exact hatan _ _ hx
  · intro h0
    have hg : surface_grazing m w de az = 0 := by
      unfold surface_grazing
      rw [h0]
      exact hzero _ hx
    have hf : (surface_reflection m w de az).returned = false := hret.mpr (le_of_eq hg)
    refine ⟨hg, hf, ?_⟩
    unfold surface_reflection
    simp [hg]

/-- Witness of C8: the sample math library meets the three assumptions, and the
    horizontal ray has grazing angle 0 and is not reflected. -/
theorem surface_near_miss_iff_witness :
    surface_grazing sample_model level_wave 0 0 = 0
    ∧ (surface_reflection sample_model level_wave 0 0).returned = false
    ∧ (surface_reflection sample_model level_wave 0 0).wave = level_wave
    ∧ ((surface_reflection sample_model rising_wave 0 0).returned = false
        ↔ (rising_wave.curr 0 0).ndirection.rho ≤ 0) := by
  have hsqrt : ∀ x : ℚ, 0 ≤ x → 0 ≤ sample_model.math.sqrt x :=
    fun x _ => exact_sqrt_nonneg x
  have hatan : ∀ y x : ℚ, 0 ≤ x → (sample_model.math.atan2 y x ≤ 0 ↔ y ≤ 0) := by
    intro y x hx
    have hpos : (0 : ℚ) < 1 + x := by linarith
    show y / (1 + x) ≤ 0 ↔ y ≤ 0
    rw [div_le_iff₀ hpos, zero_mul]
  have hzero : ∀ x : ℚ, 0 ≤ x → sample_model.math.atan2 0 x = 0 := by
    intro x _
    show (0 : ℚ) / (1 + x) = 0
    exact zero_div _
  have t := surface_near_miss_iff sample_model level_wave 0 0 hsqrt hatan hzero
  have t2 := surface_near_miss_iff sample_model rising_wave 0 0 hsqrt hatan hzero
  have h0 : (level_wave.curr 0 0).ndirection.rho = 0 := rfl
  exact ⟨(t.2.2 h0).1, (t.2.2 h0).2.1, (t.2.2 h0).2.2, t2.1.trans t2.2.1⟩

/-- C2, as the code has it: when `bottom_reflection` returns true with refined
    sound speed `c > 0` and a reflected vector different from zero, the
    direction handed to `reflection_reinit` has the Euclidean magnitude
    `sqrt(rho^2 + theta^2 + phi^2) = 1 / c` (squared magnitude `1 / c^2`), not
    `c`; the numbers are the reals and the library square root is the real
    square root. -/
theorem bottom_reflection_magnitude (m : reflection_model ℝ) (w : wave_queue ℝ) (de az : Nat)
    (depth time_water : ℝ)
    (hsqrt : m.math.sqrt = Real.sqrt)
    (h : (bottom_reflection m w de az depth).returned = true)
    (htw : bottom_time_water m w de az = some time_water)
    (hc : 0 < (collision_location w de az time_water).2.2)
    (hR : bottom_reflected m w de az time_water ≠ ⟨0, 0, 0⟩) :
    ∃ call, (bottom_reflection m w de az depth).reinit = [call]
      ∧ call.speed = (collision_location w de az time_water).2.2
      ∧ Real.sqrt (call.ndirection.rho ^ 2 + call.ndirection.theta ^ 2 + call.ndirection.phi ^ 2)
          = 1 / call.speed
      ∧ call.ndirection.rho ^ 2 + call.ndirection.theta ^ 2 + call.ndirection.phi ^ 2
          = 1 / call.speed ^ 2 := by
  obtain ⟨_, hre⟩ := bottom_reflection_reinit m w de az depth time_water h htw
  rw [hsqrt] at hre
  obtain ⟨h2, hs⟩ := norm2_normalised (bottom_reflected m w de az time_water)
    (collision_location w de az time_water).2.2 hR hc
  have e : ∀ v : wvector1 ℝ, v.rho ^ 2 + v.theta ^ 2 + v.phi ^ 2 = norm2 v := by
    intro v
    simp only [norm2]
    ring
  refine ⟨_, hre, rfl, ?_, ?_⟩
  · rw [e]
    exact hs
  · rw [e, h2, one_div, one_div, inv_pow]

/-- Witness of the amended C2: the oblique ray with sound speed 2, whose
    reflected vector (1, 1, 0) has the irrational length `sqrt 2`, leaves the
    bottom with a direction of magnitude 1/2. -/
theorem bottom_reflection_magnitude_witness :
    bottom_reflected (plain_model Real.sqrt) oblique_wave 0 0 1 = ⟨1, 1, 0⟩
    ∧ ∃ call, (bottom_reflection (plain_model Real.sqrt) oblique_wave 0 0 1000).reinit = [call]
      ∧ call.speed = (collision_location (oblique_wave : wave_queue ℝ) 0 0 1).2.2
      ∧ Real.sqrt (call.ndirection.rho ^ 2 + call.ndirection.theta ^ 2 + call.ndirection.phi ^ 2)
          = 1 / call.speed
      ∧ call.ndirection.rho ^ 2 + call.ndirection.theta ^ 2 + call.ndirection.phi ^ 2
          = 1 / call.speed ^ 2 :=
  ⟨oblique_reflected Real.sqrt,
    bottom_reflection_magnitude (plain_model Real.sqrt) oblique_wave 0 0 1000 1 rfl
      (oblique_returned Real.sqrt) (oblique_time_water Real.sqrt)
      (by rw [oblique_location]; norm_num)
      (by rw [oblique_reflected]; simp)⟩

/-- C2 fails as stated: the descending ray is reflected, its refined sound speed
    is 2 > 0, and the direction (3/10, 2/5, 0) handed to `reflection_reinit` has
    Euclidean magnitude 1/2, which is not the sound speed. -/
theorem bottom_reflection_magnitude_counterexample :
    (bottom_reflection sample_model descending_wave 0 0 1000).returned = true
    ∧ (bottom_reflection sample_model descending_wave 0 0 1000).reinit =
        [⟨0, 0, 1, ⟨5010, 0, 0⟩, ⟨3/10, 2/5, 0⟩, 2⟩]
    ∧ (collision_location descending_wave 0 0 1).2.2 = 2
    ∧ sample_model.math.sqrt ((3/10 : ℚ) ^ 2 + (2/5) ^ 2 + 0 ^ 2) = 1/2
    ∧ sample_model.math.sqrt ((3/10 : ℚ) ^ 2 + (2/5) ^ 2 + 0 ^ 2) ≠ 2 := by
  have hq : ((3/10 : ℚ) ^ 2 + (2/5) ^ 2 + 0 ^ 2) = 1/4 := by norm_num
  have hs : sample_model.math.sqrt (1/4) = 1/2 := exact_sqrt_quarter
  refine ⟨descending_returned, descending_reinit, ?_, ?_, ?_⟩
  · norm_num [collision_location, descending_wave, sample_wave, uniform_front]
  · rw [hq, hs]
  · rw [hq, hs]
    norm_num

/-- C6: when `bottom_reflection` returns true, the normal at the refined
    collision point is the radial unit vector (1, 0, 0), the refined speed is
    positive and the library square root is positive on positive numbers, the
    direction handed to `reflection_reinit` is a strictly positive multiple of
    the refined direction with its radial component negated. -/
theorem flat_bottom_specular (m : reflection_model α) (w : wave_queue α) (de az : Nat)
    (depth time_water : α)
    (h : (bottom_reflection m w de az depth).returned = true)
    (htw : bottom_time_water m w de az = some time_water)
    (hn : (m.bottom.height (collision_location w de az time_water).1).2 = ⟨1, 0, 0⟩)
    (hc : 0 < (collision_location w de az time_water).2.2)
    (hsqrt : ∀ x, 0 < x → 0 < m.math.sqrt x) :
    ∃ call k, (bottom_reflection m w de az depth).reinit = [call] ∧ 0 < k
      ∧ call.ndirection =
        ⟨k * -(collision_location w de az time_water).2.1.rho,
         k * (collision_location w de az time_water).2.1.theta,
         k * (collision_location w de az time_water).2.1.phi⟩ := by
  obtain ⟨hd, hre⟩ := bottom_reflection_reinit m w de az depth time_water h htw
  have hdot : bottom_dot_full m w de az time_water
      = (collision_location w de az time_water).2.2 * (collision_location w de az time_water).2.2
        * (collision_location w de az time_water).2.1.rho := by
    simp only [bottom_dot_full, hn]
    ring
  have hc2 : 0 < (collision_location w de az time_water).2.2
      * (collision_location w de az time_water).2.2 := mul_pos hc hc
  have hrho : (collision_location w de az time_water).2.1.rho < 0 := by
    rw [hdot] at hd
    by_contra hcon
    have : 0 ≤ (collision_location w de az time_water).2.2
        * (collision_location w de az time_water).2.2
        * (collision_location w de az time_water).2.1.rho :=
      mul_nonneg (le_of_lt hc2) (not_lt.mp hcon)
    linarith
  have hR : bottom_reflected m w de az time_water
      = ⟨(collision_location w de az time_water).2.2 * (collision_location w de az time_water).2.2
            * -(collision_location w de az time_water).2.1.rho,
         (collision_location w de az time_water).2.2 * (collision_location w de az time_water).2.2
            * (collision_location w de az time_water).2.1.theta,
         (collision_location w de az time_water).2.2 * (collision_location w de az time_water).2.2
            * (collision_location w de az time_water).2.1.phi⟩ := by
    simp only [bottom_reflected, hdot, hn]
    congr 1 <;> ring
  have hpos : 0 < norm2 (bottom_reflected m w de az time_water) := by
    rw [hR]
    simp only [norm2]
    have h1 : 0 < ((collision_location w de az time_water).2.2
        * (collision_location w de az time_water).2.2
        * -(collision_location w de az time_water).2.1.rho) := mul_pos hc2 (by linarith)
    have h2 := mul_pos h1 h1
    have h3 := mul_self_nonneg ((collision_location w de az time_water).2.2
        * (collision_location w de az time_water).2.2
        * (collision_location w de az time_water).2.1.theta)
    have h4 := mul_self_nonneg ((collision_location w de az time_water).2.2
        * (collision_location w de az time_water).2.2
        * (collision_location w de az time_water).2.1.phi)
    linarith
  have hN : 0 < m.math.sqrt (norm2 (bottom_reflected m w de az time_water))
      * (collision_location w de az time_water).2.2 := mul_pos (hsqrt _ hpos) hc
  refine ⟨_, (collision_location w de az time_water).2.2
      * (collision_location w de az time_water).2.2
      / (m.math.sqrt (norm2 (bottom_reflected m w de az time_water))
          * (collision_location w de az time_water).2.2), hre, div_pos hc2 hN, ?_⟩
  simp only
  generalize m.math.sqrt (norm2 (bottom_reflected m w de az time_water))
      * (collision_location w de az time_water).2.2 = N
  rw [hR]
  simp only
  congr 1 <;> ring

/-- Witness of C6: off the flat sample bottom the descending ray
    (-3/10, 2/5, 0) leaves as (3/10, 2/5, 0). -/
theorem flat_bottom_specular_witness :
    ∃ call k, (bottom_reflection sample_model descending_wave 0 0 1000).reinit = [call] ∧ 0 < k
      ∧ call.ndirection =
        ⟨k * -(collision_location descending_wave 0 0 1).2.1.rho,
         k * (collision_location descending_wave 0 0 1).2.1.theta,
         k * (collision_location descending_wave 0 0 1).2.1.phi⟩ :=
  flat_bottom_specular sample_model descending_wave 0 0 1000 1
    descending_returned descending_time_water rfl
    (by norm_num [collision_location, descending_wave, sample_wave, uniform_front])
    (by
      intro x hx
      show 0 < exact_sqrt x
      unfold exact_sqrt
      have h1 : 0 < x.num := Rat.num_pos.mpr hx
      have h2 : 0 < x.num.toNat := by omega
      have h3 : 0 < Nat.sqrt x.num.toNat := Nat.sqrt_pos.mpr h2
      have h4 : 0 < Nat.sqrt x.den := Nat.sqrt_pos.mpr x.den_pos
      positivity)

/-- C9: `convolve_eigenverbs` calls the pair contribution once for every ordered
    pair (u, v) of the collection, u = v included, whose combined travel time is
    below `max_time`, in loop order, and for no pair whose combined time equals
    or exceeds `max_time`; two eigenverbs at 0.4 `max_time` give all four
    pairs, two at 0.6 `max_time` give none. -/
theorem convolve_calls_pairs (max_time : ℚ) (set : List eigenverb) :
    convolve_calls max_time set
        = (List.product set set).filter (fun p => decide (p.1.time + p.2.time < max_time))
    ∧ (∀ u v, max_time ≤ u.time + v.time → (u, v) ∉ convolve_calls max_time set)
    ∧ (∀ u v, u ∈ set → v ∈ set → u.time + v.time < max_time →
        (u, v) ∈ convolve_calls max_time set)
    ∧ (set.Nodup → (convolve_calls max_time set).Nodup)
    ∧ (∀ u v : eigenverb, 0 < max_time → u.time = (2/5) * max_time →
        v.time = (2/5) * max_time →
        convolve_calls max_time [u, v] = [(u, u), (u, v), (v, u), (v, v)])
    ∧ (∀ u v : eigenverb, 0 < max_time → u.time = (3/5) * max_time →
        v.time = (3/5) * max_time → convolve_calls max_time [u, v] = []) := by
  have main : ∀ l : List eigenverb, convolve_calls max_time l
      = (List.product l l).filter (fun p => decide (p.1.time + p.2.time < max_time)) := by
    intro l
    unfold convolve_calls convolve_eigenverbs
    simpa using convolve_outer_calls max_time l l []
  refine ⟨main set, ?_, ?_, ?_, ?_, ?_⟩
  · intro u v hge hmem
    rw [main, List.mem_filter] at hmem
    have hlt : u.time + v.time < max_time := by simpa using hmem.2
    exact absurd hlt (not_lt.mpr hge)
  · intro u v hu hv hlt
    rw [main, List.mem_filter]
    exact ⟨List.mem_product.mpr ⟨hu, hv⟩, by simpa using hlt⟩
  · intro hnd
    rw [main]
    exact (hnd.product hnd).filter _
  · intro u v hpos hu hv
    have h1 : u.time + u.time < max_time := by rw [hu]; linarith
    have h2 : u.time + v.time < max_time := by rw [hu, hv]; linarith
    have h3 : v.time + u.time < max_time := by rw [hu, hv]; linarith
    have h4 : v.time + v.time < max_time := by rw [hv]; linarith
    rw [main]
    simp [List.product, h1, h2, h3, h4]
  · intro u v hpos hu hv
    have h1 : ¬ (u.time + u.time < max_time) := by rw [hu]; intro h; linarith
    have h2 : ¬ (u.time + v.time < max_time) := by rw [hu, hv]; intro h; linarith
    have h3 : ¬ (v.time + u.time < max_time) := by rw [hu, hv]; intro h; linarith
    have h4 : ¬ (v.time + v.time < max_time) := by rw [hv]; intro h; linarith
    rw [main]
    simp [List.product, h1, h2, h3, h4]

/-- Witness of C9 with `max_time` = 10: two eigenverbs at time 4 give four
    calls, two at time 6 give none, and a pair at times 4 and 6 (combined time
    equal to `max_time`) is skipped. -/
theorem convolve_calls_pairs_witness :
    convolve_calls 10 [sample_verb 0 4, sample_verb 1 4]
        = [(sample_verb 0 4, sample_verb 0 4), (sample_verb 0 4, sample_verb 1 4),
           (sample_verb 1 4, sample_verb 0 4), (sample_verb 1 4, sample_verb 1 4)]
    ∧ convolve_calls 10 [sample_verb 0 6, sample_verb 1 6] = []
    ∧ (sample_verb 0 4, sample_verb 1 6) ∉ convolve_calls 10 [sample_verb 0 4, sample_verb 1 6] :=
  ⟨(convolve_calls_pairs 10 [sample_verb 0 4, sample_verb 1 4]).2.2.2.2.1 _ _
      (by norm_num) (by norm_num [sample_verb]) (by norm_num [sample_verb]),
    (convolve_calls_pairs 10 [sample_verb 0 6, sample_verb 1 6]).2.2.2.2.2 _ _
      (by norm_num) (by norm_num [sample_verb]) (by norm_num [sample_verb]),
    (convolve_calls_pairs 10 [sample_verb 0 4, sample_verb 1 6]).2.1 _ _
      (by norm_num [sample_verb])⟩

/-- C10: a call whose identity equals `SOURCE_ID` succeeds;
    `notifyUpperCollision` appends the eigenverb built from the arguments to the
    end of the surface collection and `notifyLowerCollision` to the end of the
    bottom collection, and every other collection and the reverberation curve
    stay as they were. -/
theorem self_collision_routing (em : eigenverb_model) (s : eigenverb_monostatic)
    (c : collision_info) (ID : Nat) (hID : ID = em.SOURCE_ID) :
    notifyUpperCollision em s c ID
        = .ok { s with surface := s.surface ++ [em.create_eigenverb c] }
    ∧ notifyLowerCollision em s c ID
        = .ok { s with bottom := s.bottom ++ [em.create_eigenverb c] } := by
  subst hID
  simp [notifyUpperCollision, notifyLowerCollision]

/-- Witness of C10: identity 10 on the sample accumulator. -/
theorem self_collision_routing_witness :
    notifyUpperCollision sample_eigenverb_model sample_monostatic sample_collision 10
        = .ok { sample_monostatic with
            surface := [sample_verb 0 1,
              sample_eigenverb_model.create_eigenverb sample_collision] }
    ∧ notifyLowerCollision sample_eigenverb_model sample_monostatic sample_collision 10
        = .ok { sample_monostatic with
            bottom := [sample_eigenverb_model.create_eigenverb sample_collision] } :=
  self_collision_routing sample_eigenverb_model sample_monostatic sample_collision 10 rfl

/-- C11: for an identity different from `SOURCE_ID` the layer index is
    `k = (ID - (source_origin - 1)) mod 2^32`; when `k` is below the number of
    collections in the table, `notifyUpperCollision` appends the eigenverb to
    `upper[k]` (`notifyLowerCollision` to `lower[k]`) and writes nothing else;
    otherwise the call fails with `out_of_range` and returns no new state. -/
theorem volume_collision_routing (em : eigenverb_model) (s : eigenverb_monostatic)
    (c : collision_info) (ID : Nat) (hID : ID ≠ em.SOURCE_ID) :
    (layer_index s ID : ℤ) = ((ID : ℤ) - ((s.source_origin : ℤ) - 1)) % 2 ^ 32
    ∧ (∀ hk : layer_index s ID < s.upper.length,
        notifyUpperCollision em s c ID
          = .ok { s with upper := (s.upper.set (layer_index s ID)
                    (s.upper[layer_index s ID] ++ [em.create_eigenverb c])) })
    ∧ (¬ layer_index s ID < s.upper.length →
        notifyUpperCollision em s c ID = .error exception.out_of_range)
    ∧ (∀ hk : layer_index s ID < s.lower.length,
        notifyLowerCollision em s c ID
          = .ok { s with lower := (s.lower.set (layer_index s ID)
                    (s.lower[layer_index s ID] ++ [em.create_eigenverb c])) })
    ∧ (¬ layer_index s ID < s.lower.length →
        notifyLowerCollision em s c ID = .error exception.out_of_range) := by
  refine ⟨?_, ?_, ?_, ?_, ?_⟩
  · simp only [layer_index, usub]
    norm_num
    omega
  · intro hk
    simp [notifyUpperCollision, hID, push_at, hk]
  · intro hk
    simp [notifyUpperCollision, hID, push_at, hk]
  · intro hk
    simp [notifyLowerCollision, hID, push_at, hk]
  · intro hk
    simp [notifyLowerCollision, hID, push_at, hk]

/-- Witness of C11 on the sample accumulator (reference 10, two layers):
    identity 9 has layer index 0 and is filed in `upper[0]`, identity 11 has
    layer index 2 and fails. -/
theorem volume_collision_routing_witness :
    layer_index sample_monostatic 9 = 0
    ∧ notifyUpperCollision sample_eigenverb_model sample_monostatic sample_collision 9
        = .ok { sample_monostatic with
            upper := [[sample_eigenverb_model.create_eigenverb sample_collision], []] }
    ∧ notifyLowerCollision sample_eigenverb_model sample_monostatic sample_collision 11
        = .error exception.out_of_range := by
  have h9 : layer_index sample_monostatic 9 = 0 := by
    norm_num [layer_index, usub, sample_monostatic]
  have h11 : layer_index sample_monostatic 11 = 2 := by
    norm_num [layer_index, usub, sample_monostatic]
  have t9 := volume_collision_routing sample_eigenverb_model sample_monostatic sample_collision 9
    (by simp [sample_eigenverb_model])
  have t11 := volume_collision_routing sample_eigenverb_model sample_monostatic sample_collision
    11 (by simp [sample_eigenverb_model])
  refine ⟨h9, ?_, ?_⟩
  · rw [t9.2.1 (by rw [h9]; simp [sample_monostatic])]
    simp only [h9]
    simp [sample_monostatic]
  · exact t11.2.2.2.2 (by rw [h11]; simp [sample_monostatic])

/-- C12: the constructor produces a reverberation curve of `num_bins` bins, all
    equal to the floor `1e-20`, which is strictly positive, and tables `upper`
    and `lower` with one empty collection per volume layer. -/
theorem construct_initial_state (num_layers wave_ID : Nat) (pulse : ℚ) (num_bins : Nat)
    (max_time : ℚ) (member_n : Nat) :
    (eigenverb_monostatic.construct num_layers wave_ID pulse num_bins max_time
        member_n).reverberation_curve = List.replicate num_bins curve_floor
    ∧ (eigenverb_monostatic.construct num_layers wave_ID pulse num_bins max_time
        member_n).reverberation_curve.length = num_bins
    ∧ curve_floor = 1 / 10 ^ 20 ∧ 0 < curve_floor
    ∧ (eigenverb_monostatic.construct num_layers wave_ID pulse num_bins max_time
        member_n).upper = List.replicate num_layers []
    ∧ (eigenverb_monostatic.construct num_layers wave_ID pulse num_bins max_time
        member_n).lower = List.replicate num_layers []
    ∧ (eigenverb_monostatic.construct num_layers wave_ID pulse num_bins max_time
        member_n).upper.length = num_layers
    ∧ (eigenverb_monostatic.construct num_layers wave_ID pulse num_bins max_time
        member_n).lower.length = num_layers := by
  refine ⟨?_, ?_, rfl, ?_, rfl, rfl, ?_, ?_⟩
  · simp [eigenverb_monostatic.construct]
  · simp [eigenverb_monostatic.construct]
  · norm_num [curve_floor]
  · simp [eigenverb_monostatic.construct]
  · simp [eigenverb_monostatic.construct]

/-- C13, evaluated on the code: two accumulators with the same (empty) lower
    collections give different curves under `compute_lower_volume_energy`,
    because the pass convolves the upper collections; and an eigenverb filed in
    a lower collection leaves the curve as it was. -/
theorem lower_volume_energy_reads_upper :
    (volume_state [[sample_verb 0 1], []] [[], []]).lower = (volume_state [[], []] [[], []]).lower
    ∧ compute_lower_volume_energy unit_contribution unit_boundaries
        (volume_state [[sample_verb 0 1], []] [[], []]) [1/100, 1/100, 1/100]
        = [101/100, 1/100, 1/100]
    ∧ compute_lower_volume_energy unit_contribution unit_boundaries
        (volume_state [[], []] [[], []]) [1/100, 1/100, 1/100]
        = [1/100, 1/100, 1/100]
    ∧ compute_lower_volume_energy unit_contribution unit_boundaries
        (volume_state [[], []] [[sample_verb 0 1], []]) [1/100, 1/100, 1/100]
        = [1/100, 1/100, 1/100] := by
  refine ⟨rfl, ?_, ?_, ?_⟩
  · norm_num [compute_lower_volume_energy, volume_pass, convolve_eigenverbs, volume_state,
      sample_monostatic, sample_verb, unit_contribution, unit_boundaries, add_energy]
  · norm_num [compute_lower_volume_energy, volume_pass, convolve_eigenverbs, volume_state,
      sample_monostatic]
  · norm_num [compute_lower_volume_energy, volume_pass, convolve_eigenverbs, volume_state,
      sample_monostatic]

/-- C14, evaluated on the code: for an accumulator constructed over two volume
    layers whose member `_n` holds 0, `compute_upper_volume_energy` calls the
    convolution for layer 0 only; the guard `layer <= _n` stops the loop before
    layer 1.  When the member holds the number of layers, both layers are
    visited. -/
theorem upper_volume_pass_cut_short :
    (eigenverb_monostatic.construct 2 10 1 3 10 0).upper.length = 2
    ∧ upper_volume_calls (eigenverb_monostatic.construct 2 10 1 3 10 0) = [(0, [])]
    ∧ upper_volume_calls (eigenverb_monostatic.construct 2 10 1 3 10 2) = [(0, []), (1, [])] := by
  refine ⟨rfl, ?_, ?_⟩
  · simp [upper_volume_calls, volume_pass, eigenverb_monostatic.construct, List.replicate]
  · simp [upper_volume_calls, volume_pass, eigenverb_monostatic.construct, List.replicate]

/-- C15: after `reflection_reinit`, the steady state step (`ab3_pos`,
    `ab3_ndir`, `update`) with the full time step, applied to the cells (de, az)
    of the grid snapshots past, prev and curr, gives the position, direction,
    gradients, sound speed and distance stored in cell (de, az) of the grid
    snapshot next, for an integrator whose step is a function of the copied
    fields of the three input cells. -/
theorem reinit_round_trip (m : reflection_model α) (w : wave_queue α) (de az : Nat)
    (time_water : α) (position : wposition1 α) (ndirection : wvector1 α) (speed : α)
    (hloc : ∀ past past' prev prev' curr curr' next next' : wave_front α,
      copied_fields (past 0 0) = copied_fields (past' 0 0) →
      copied_fields (prev 0 0) = copied_fields (prev' 0 0) →
      copied_fields (curr 0 0) = copied_fields (curr' 0 0) →
      copied_fields (ab3_step m.integ w.time_step past prev curr next 0 0)
        = copied_fields (ab3_step m.integ w.time_step past' prev' curr' next' 0 0))
    (next : wave_front α) :
    copied_fields (ab3_step m.integ w.time_step
        (cell_front ((reflection_reinit m w de az time_water position ndirection speed).past de az))
        (cell_front ((reflection_reinit m w de az time_water position ndirection speed).prev de az))
        (cell_front ((reflection_reinit m w de az time_water position ndirection speed).curr de az))
        next 0 0)
      = copied_fields
          ((reflection_reinit m w de az time_water position ndirection speed).next de az) := by
  simp only [reflection_reinit]
  rw [reflection_copy_fields]
  exact hloc _ _ _ _ _ _ _ _
    (by simp only [cell_front]; exact reflection_copy_fields _ _ _ _)
    (by simp only [cell_front]; exact reflection_copy_fields _ _ _ _)
    (by simp only [cell_front]; exact reflection_copy_fields _ _ _ _)

/-- Witness of C15: the straight ray integrator on the descending wave,
    reinitialised at cell (1, 2). -/
theorem reinit_round_trip_witness :
    copied_fields (ab3_step drift_model.integ descending_wave.time_step
        (cell_front ((reflection_reinit drift_model descending_wave 1 2 (1/2) ⟨5000, 0, 0⟩
          ⟨3/10, 2/5, 0⟩ 2).past 1 2))
        (cell_front ((reflection_reinit drift_model descending_wave 1 2 (1/2) ⟨5000, 0, 0⟩
          ⟨3/10, 2/5, 0⟩ 2).prev 1 2))
        (cell_front ((reflection_reinit drift_model descending_wave 1 2 (1/2) ⟨5000, 0, 0⟩
          ⟨3/10, 2/5, 0⟩ 2).curr 1 2))
        drift_integ.fresh 0 0)
      = copied_fields
          ((reflection_reinit drift_model descending_wave 1 2 (1/2) ⟨5000, 0, 0⟩
            ⟨3/10, 2/5, 0⟩ 2).next 1 2) :=
  reinit_round_trip drift_model descending_wave 1 2 (1/2) ⟨5000, 0, 0⟩ ⟨3/10, 2/5, 0⟩ 2
    (drift_step_local descending_wave.time_step) drift_integ.fresh

/-- C16: `reflection_copy` sets position, position gradient, direction,
    direction gradient, sound speed gradient, sound speed and distance of cell
    (de, az) to the values of cell (0,0) of the result, keeps the attenuation and
    phase of that cell and writes no other cell; `reflection_reinit` leaves every
    cell other than (de, az) of the four snapshots, and attenuation and phase of
    every cell, as they were. -/
theorem reinit_frame (m : reflection_model α) (w : wave_queue α) (de az : Nat)
    (time_water : α) (position : wposition1 α) (ndirection : wvector1 α) (speed : α) :
    (∀ (element results : wave_front α),
      copied_fields (reflection_copy element de az results de az) = copied_fields (results 0 0)
      ∧ (reflection_copy element de az results de az).attenuation = (element de az).attenuation
      ∧ (reflection_copy element de az results de az).phase = (element de az).phase
      ∧ ∀ d a, ¬ (d = de ∧ a = az) → reflection_copy element de az results d a = element d a)
    ∧ (∀ d a, ¬ (d = de ∧ a = az) →
      (reflection_reinit m w de az time_water position ndirection speed).past d a = w.past d a
      ∧ (reflection_reinit m w de az time_water position ndirection speed).prev d a = w.prev d a
      ∧ (reflection_reinit m w de az time_water position ndirection speed).curr d a = w.curr d a
      ∧ (reflection_reinit m w de az time_water position ndirection speed).next d a = w.next d a)
    ∧ (∀ d a,
      ((reflection_reinit m w de az time_water position ndirection speed).past d a).attenuation
          = (w.past d a).attenuation
      ∧ ((reflection_reinit m w de az time_water position ndirection speed).past d a).phase
          = (w.past d a).phase
      ∧ ((reflection_reinit m w de az time_water position ndirection speed).prev d a).attenuation
          = (w.prev d a).attenuation
      ∧ ((reflection_reinit m w de az time_water position ndirection speed).prev d a).phase
          = (w.prev d a).phase
      ∧ ((reflection_reinit m w de az time_water position ndirection speed).curr d a).attenuation
          = (w.curr d a).attenuation
      ∧ ((reflection_reinit m w de az time_water position ndirection speed).curr d a).phase
          = (w.curr d a).phase
      ∧ ((reflection_reinit m w de az time_water position ndirection speed).next d a).attenuation
          = (w.next d a).attenuation
      ∧ ((reflection_reinit m w de az time_water position ndirection speed).next d a).phase
          = (w.next d a).phase) := by
  refine ⟨?_, ?_, ?_⟩
  · intro element results
    exact ⟨reflection_copy_fields element de az results,
      (reflection_copy_loss element de az results de az).1,
      (reflection_copy_loss element de az results de az).2,
      fun d a hda => reflection_copy_other element de az results d a hda⟩
  · intro d a hda
    simp only [reflection_reinit]
    exact ⟨reflection_copy_other _ _ _ _ _ _ hda, reflection_copy_other _ _ _ _ _ _ hda,
      reflection_copy_other _ _ _ _ _ _ hda, reflection_copy_other _ _ _ _ _ _ hda⟩
  · intro d a
    exact reflection_reinit_loss m w de az time_water position ndirection speed d a

/-- Witness of C16: reinitialising cell (1, 2) of the descending wave leaves
    cell (0, 0) of the next snapshot as it was, and puts into cell (1, 2) of curr
    the reflected position moved back by `time_water` = 1/2. -/
theorem reinit_frame_witness :
    (reflection_reinit drift_model descending_wave 1 2 (1/2) ⟨5000, 0, 0⟩ ⟨3/10, 2/5, 0⟩ 2).next
        0 0 = descending_wave.next 0 0
    ∧ ((reflection_reinit drift_model descending_wave 1 2 (1/2) ⟨5000, 0, 0⟩ ⟨3/10, 2/5, 0⟩
        2).curr 1 2).position = ⟨99997/20, -1/5, 0⟩ := by
  refine ⟨((reinit_frame drift_model descending_wave 1 2 (1/2) ⟨5000, 0, 0⟩ ⟨3/10, 2/5, 0⟩
    2).2.1 0 0 (by decide)).2.2.2, ?_⟩
  norm_num [reflection_reinit, reflection_copy, wave_front.set, drift_model, drift_integ,
    drift_update, drift_pos, drift_ndir, uniform_front]

/-- C17, evaluated on the code: over a level bottom 100 deep, shallower than
    `TOO_SHALLOW` = 300, whose normal is (1, 0, 0), with the time step 1 and the
    ray 10 above the bottom, the guarded normal is (0, NaN, NaN), the first half
    leaves a NaN `time_water`, which is no number in `[0, dt]`, and the call goes
    on with it and returns true. -/
theorem time_water_not_a_number :
    (0 : ℚ) ≤ shallow_wave.time_step
    ∧ reef_model.earth_radius - (reef_model.bottom.height (shallow_wave.curr 0 0).position).1
        < reef_model.TOO_SHALLOW
    ∧ (reef_model.bottom.height (shallow_wave.curr 0 0).position).2 = ⟨1, 0, 0⟩
    ∧ first_normal reef_model shallow_wave 0 0 = ⟨double.val 0, double.nan, double.nan⟩
    ∧ bottom_time_water reef_model shallow_wave 0 0 = some double.nan
    ∧ (¬ ∃ tw : ℚ, bottom_time_water reef_model shallow_wave 0 0 = some (double.val tw)
        ∧ 0 ≤ tw ∧ tw ≤ shallow_wave.time_step)
    ∧ (bottom_reflection reef_model shallow_wave 0 0 1000).returned = true
    ∧ (bottom_reflection reef_model shallow_wave 0 0 1000).not_a_number = true := by
  refine ⟨?_, ?_, rfl, reef_first_normal, reef_time_water, ?_, ?_, ?_⟩
  · norm_num [shallow_wave, sample_wave]
  · norm_num [reef_model, sample_model, flat_boundary]
  · rintro ⟨tw, htw, _⟩
    rw [reef_time_water] at htw
    exact double.noConfusion (Option.some.inj htw)
  · rw [bottom_reflection_nan reef_model shallow_wave 0 0 1000 reef_time_water]
  · rw [bottom_reflection_nan reef_model shallow_wave 0 0 1000 reef_time_water]

/-- C18, evaluated on the code: over a bottom 100 deep, shallower than
    `TOO_SHALLOW` = 300, with unit normal (4/5, 3/5, 0), the normal used by the
    first near-miss test and the `time_water` estimate is (0, 5/3, 0): its
    radial component is zero and a horizontal component is not. -/
theorem shallow_guard_not_radial :
    shallow_model.earth_radius - (shallow_model.bottom.height (shallow_wave.curr 0 0).position).1
        < shallow_model.TOO_SHALLOW
    ∧ (shallow_model.bottom.height (shallow_wave.curr 0 0).position).2 = ⟨4/5, 3/5, 0⟩
    ∧ first_normal shallow_model shallow_wave 0 0 = ⟨0, 5/3, 0⟩ := by
  refine ⟨?_, rfl, ?_⟩
  · norm_num [shallow_model, sample_model, flat_boundary]
  · norm_num [first_normal, shallow_guard, shallow_model, sample_model, flat_boundary]
    refine ⟨rfl, ?_, rfl⟩
    show double.val (5 / 3) = double.val 5 / double.val 3
    rw [double.val_div_val]
    norm_num

/-- C20: when each pair contributes by adding a non-negative energy to one bin,
    the curve after `convolve_eigenverbs`, and after each of the four
    `compute_..._energy` passes, has the same number of bins and no bin below its
    value before the call; bins at or above a floor stay at or above it. -/
theorem energy_accumulates {β : Type} (energy : eigenverb → eigenverb → β → ℚ)
    (bin : eigenverb → eigenverb → β → Nat) (henergy : ∀ u v b, 0 ≤ energy u v b)
    (max_time : ℚ) (set : List eigenverb) (boundary : β) (b : reverb_boundaries β)
    (s : eigenverb_monostatic) (curve : List ℚ) :
    bins_le curve (convolve_eigenverbs (bin_contribution energy bin) max_time set boundary curve)
    ∧ bins_le curve (compute_bottom_energy (bin_contribution energy bin) b s curve)
    ∧ bins_le curve (compute_surface_energy (bin_contribution energy bin) b s curve)
    ∧ bins_le curve (compute_upper_volume_energy (bin_contribution energy bin) b s curve)
    ∧ bins_le curve (compute_lower_volume_energy (bin_contribution energy bin) b s curve)
    ∧ (∀ result floor, bins_le curve result →
        result.length = curve.length
        ∧ (∀ i (h1 : i < curve.length) (h2 : i < result.length), curve[i] ≤ result[i])
        ∧ ((∀ x ∈ curve, floor ≤ x) → ∀ y ∈ result, floor ≤ y)) := by
  have hc : ∀ u v (b : β) (curve : List ℚ),
      bins_le curve (bin_contribution energy bin u v b curve) :=
    fun u v b curve => bins_le_add_energy _ _ (henergy u v b) curve
  have hconv : ∀ (mt : ℚ) (set : List eigenverb) (b : β) (curve : List ℚ),
      bins_le curve (convolve_eigenverbs (bin_contribution energy bin) mt set b curve) :=
    fun mt set b curve => bins_le_convolve _ hc mt set b curve
  refine ⟨hconv _ _ _ _, hconv _ _ _ _, hconv _ _ _ _, ?_, ?_, ?_⟩
  · exact bins_le_volume_pass _ (hconv s.max_time) _ _ _ _ _
  · exact bins_le_volume_pass _ (hconv s.max_time) _ _ _ _ _
  · intro result floor hr
    exact ⟨hr.1.symm, hr.2, bins_le_floor hr floor⟩

/-- Witness of C20: two eigenverbs on the surface, each pair adding the energy
    1/2 to bin 1 of a curve at the floor value. -/
theorem energy_accumulates_witness :
    compute_surface_energy (bin_contribution (fun _ _ (_ : Unit) => (1/2 : ℚ)) (fun _ _ _ => 1))
        unit_boundaries { sample_monostatic with surface := [sample_verb 0 1, sample_verb 1 2] }
        [curve_floor, curve_floor, curve_floor]
      = [curve_floor, curve_floor + 2, curve_floor]
    ∧ bins_le [curve_floor, curve_floor, curve_floor]
        (compute_surface_energy
          (bin_contribution (fun _ _ (_ : Unit) => (1/2 : ℚ)) (fun _ _ _ => 1))
          unit_boundaries { sample_monostatic with surface := [sample_verb 0 1, sample_verb 1 2] }
          [curve_floor, curve_floor, curve_floor]) := by
  refine ⟨?_, (energy_accumulates (fun _ _ (_ : Unit) => (1/2 : ℚ)) (fun _ _ _ => 1)
    (by intro _ _ _; norm_num) 10 [] () unit_boundaries
    { sample_monostatic with surface := [sample_verb 0 1, sample_verb 1 2] }
    [curve_floor, curve_floor, curve_floor]).2.2.1⟩
  norm_num [compute_surface_energy, convolve_eigenverbs, bin_contribution, add_energy,
    sample_monostatic, sample_verb, unit_boundaries]
  ring

/-- C22, evaluated on the code: over the level shallow bottom the ray is above
    the bottom (`h` = 10 > 0) and the first projected dot product `d1` is NaN, so
    `d1 < 0` is false like `d1 >= 0`; the claim's condition
    (`h ≤ 0` or `d1 < 0`) fails, and the call returns true. -/
theorem success_without_negative_dot :
    0 < bottom_height_water reef_model shallow_wave 0 0
    ∧ ¬ bottom_height_water reef_model shallow_wave 0 0 ≤ 0
    ∧ first_dot_full reef_model shallow_wave 0 0 = double.nan
    ∧ (first_dot_full reef_model shallow_wave 0 0).lt (double.val 0) = false
    ∧ (first_dot_full reef_model shallow_wave 0 0).ge (double.val 0) = false
    ∧ (bottom_reflection reef_model shallow_wave 0 0 1000).returned = true := by
  rw [reef_first_dot_full, reef_height_water,
    bottom_reflection_nan reef_model shallow_wave 0 0 1000 reef_time_water]
  norm_num

/-- C23: for a time step different from zero, `collision_location` returns the
    curr values at `time_water` = 0, the next values at `time_water` = dt and the
    prev values at `time_water` = -dt, for the position, the direction and the
    sound speed; replacing the past snapshot does not change its result. -/
theorem collision_location_interpolates (w : wave_queue α) (de az : Nat)
    (hdt : w.time_step ≠ 0) :
    collision_location w de az 0
        = ((w.curr de az).position, (w.curr de az).ndirection, (w.curr de az).sound_speed)
    ∧ collision_location w de az w.time_step
        = ((w.next de az).position, (w.next de az).ndirection, (w.next de az).sound_speed)
    ∧ collision_location w de az (-w.time_step)
        = ((w.prev de az).position, (w.prev de az).ndirection, (w.prev de az).sound_speed)
    ∧ (∀ (past : wave_front α) (time_water : α),
        collision_location { w with past := past } de az time_water
          = collision_location w de az time_water) := by
  refine ⟨?_, ?_, ?_, ?_⟩
  · simp [collision_location]
  · simp only [collision_location]
    refine Prod.ext ?_ (Prod.ext ?_ ?_)
    · cases hn : (w.next de az).position
      simp only [hn, wvector1.mk.injEq]
      refine ⟨?_, ?_, ?_⟩ <;> (field_simp; ring)
    · cases hn : (w.next de az).ndirection
      simp only [hn, wvector1.mk.injEq]
      refine ⟨?_, ?_, ?_⟩ <;> (field_simp; ring)
    · simp only
      field_simp
      ring
  · simp only [collision_location]
    refine Prod.ext ?_ (Prod.ext ?_ ?_)
    · cases hn : (w.prev de az).position
      simp only [hn, wvector1.mk.injEq]
      refine ⟨?_, ?_, ?_⟩ <;> (field_simp; ring)
    · cases hn : (w.prev de az).ndirection
      simp only [hn, wvector1.mk.injEq]
      refine ⟨?_, ?_, ?_⟩ <;> (field_simp; ring)
    · simp only
      field_simp
      ring
  · intro past time_water
    rfl

/-- Witness of C23 on the marching wave (time step 1/2): at 0, 1/2 and -1/2 the
    refined sound speed is 4, 7 and 2, the curr, next and prev values. -/
theorem collision_location_interpolates_witness :
    marching_wave.time_step ≠ 0
    ∧ (collision_location marching_wave 0 0 0).2.2 = 4
    ∧ (collision_location marching_wave 0 0 (1/2)).2.2 = 7
    ∧ (collision_location marching_wave 0 0 (-(1/2))).2.2 = 2 := by
  have h : marching_wave.time_step ≠ 0 := by norm_num [marching_wave]
  have t := collision_location_interpolates marching_wave 0 0 h
  have hts : marching_wave.time_step = 1/2 := rfl
  rw [hts] at t
  refine ⟨h, ?_, ?_, ?_⟩
  · rw [t.1]; rfl
  · rw [t.2.1]; rfl
  · rw [t.2.2.1]; rfl

/-- C24: when `bottom_reflection` returns true with refined sound speed `c > 0`
    and a reflected vector `R` different from zero, `reflection_reinit` is
    called, with the direction `R / (sqrt(|R|^2) * c)`, whose squared length is
    `(1/c)^2` and whose Euclidean magnitude is `1/c > 0`; nothing is assumed on
    the length of the normal or of the incident direction.  The numbers are the
    reals and the library square root is the real square root. -/
theorem reflected_direction_magnitude (m : reflection_model ℝ) (w : wave_queue ℝ) (de az : Nat)
    (depth time_water : ℝ)
    (hsqrt : m.math.sqrt = Real.sqrt)
    (h : (bottom_reflection m w de az depth).returned = true)
    (htw : bottom_time_water m w de az = some time_water)
    (hc : 0 < (collision_location w de az time_water).2.2)
    (hR : bottom_reflected m w de az time_water ≠ ⟨0, 0, 0⟩) :
    (bottom_reflection m w de az depth).reinit ≠ []
    ∧ ∀ call ∈ (bottom_reflection m w de az depth).reinit,
      call.ndirection =
        ⟨(bottom_reflected m w de az time_water).rho
            / (Real.sqrt (norm2 (bottom_reflected m w de az time_water))
                * (collision_location w de az time_water).2.2),
         (bottom_reflected m w de az time_water).theta
            / (Real.sqrt (norm2 (bottom_reflected m w de az time_water))
                * (collision_location w de az time_water).2.2),
         (bottom_reflected m w de az time_water).phi
            / (Real.sqrt (norm2 (bottom_reflected m w de az time_water))
                * (collision_location w de az time_water).2.2)⟩
      ∧ norm2 call.ndirection = (1 / (collision_location w de az time_water).2.2) ^ 2
      ∧ Real.sqrt (norm2 call.ndirection) = 1 / (collision_location w de az time_water).2.2
      ∧ 0 < 1 / (collision_location w de az time_water).2.2 := by
  obtain ⟨_, hre⟩ := bottom_reflection_reinit m w de az depth time_water h htw
  rw [hsqrt] at hre
  obtain ⟨h2, hs⟩ := norm2_normalised (bottom_reflected m w de az time_water)
    (collision_location w de az time_water).2.2 hR hc
  refine ⟨by rw [hre]; simp, ?_⟩
  intro call hcall
  rw [hre, List.mem_singleton] at hcall
  subst hcall
  exact ⟨rfl, h2, hs, one_div_pos.mpr hc⟩

/-- Witness of C24: the oblique ray with sound speed 2 and reflected vector
    (1, 1, 0) is handed on with the direction (1, 1, 0) / (2 sqrt 2), of
    magnitude 1/2. -/
theorem reflected_direction_magnitude_witness :
    (bottom_reflection (plain_model Real.sqrt) oblique_wave 0 0 1000).reinit
        = [⟨0, 0, 1, ⟨5010, 0, 0⟩,
            ⟨1 / (Real.sqrt 2 * 2), 1 / (Real.sqrt 2 * 2), 0⟩, 2⟩]
    ∧ Real.sqrt (norm2 (⟨1 / (Real.sqrt 2 * 2), 1 / (Real.sqrt 2 * 2), 0⟩ : wvector1 ℝ))
        = 1 / 2 := by
  have t := reflected_direction_magnitude (plain_model Real.sqrt) oblique_wave 0 0 1000 1 rfl
    (oblique_returned Real.sqrt) (oblique_time_water Real.sqrt)
    (by rw [oblique_location]; norm_num)
    (by rw [oblique_reflected]; simp)
  have hre := (bottom_reflection_reinit (plain_model Real.sqrt) oblique_wave 0 0 1000 1
    (oblique_returned Real.sqrt) (oblique_time_water Real.sqrt)).2
  have hn : norm2 (⟨1, 1, 0⟩ : wvector1 ℝ) = 2 := by norm_num [norm2]
  rw [oblique_reflected, oblique_location, hn] at hre
  have hre2 : (bottom_reflection (plain_model Real.sqrt) oblique_wave 0 0 1000).reinit
      = [⟨0, 0, 1, ⟨5010, 0, 0⟩,
          ⟨1 / (Real.sqrt 2 * 2), 1 / (Real.sqrt 2 * 2), 0⟩, 2⟩] := by
    rw [hre]
    simp [plain_model]
  refine ⟨hre2, ?_⟩
  have t2 := (t.2 _ (by rw [hre2]; exact List.mem_singleton.mpr rfl)).2.2.1
  rw [oblique_location] at t2
  exact t2


/-- C25: with `n` the normal queried at the refined point, `I` the incident
    vector and `R = I - 2 (n . I) n`, one has `n . R = (n . I)(1 - 2 |n|^2)`; for
    a unit normal `n . R = -(n . I)` and `|R| = |I|`, and then, when
    `bottom_reflection` returns true with refined speed `c > 0` (and a square
    root that is positive on positive numbers), the direction handed to
    `reflection_reinit` has a strictly positive scalar product with `n`. -/
theorem reflected_ray_leaves_bottom (m : reflection_model α) (w : wave_queue α) (de az : Nat)
    (depth time_water : α) :
    dot (refined_normal m w de az time_water) (bottom_reflected m w de az time_water)
        = dot (refined_normal m w de az time_water) (bottom_incident w de az time_water)
          * (1 - 2 * norm2 (refined_normal m w de az time_water))
    ∧ (norm2 (refined_normal m w de az time_water) = 1 →
        dot (refined_normal m w de az time_water) (bottom_reflected m w de az time_water)
          = -dot (refined_normal m w de az time_water) (bottom_incident w de az time_water)
        ∧ norm2 (bottom_reflected m w de az time_water)
          = norm2 (bottom_incident w de az time_water))
    ∧ ((bottom_reflection m w de az depth).returned = true →
        bottom_time_water m w de az = some time_water →
        0 < (collision_location w de az time_water).2.2 →
        norm2 (refined_normal m w de az time_water) = 1 →
        (∀ x, 0 < x → 0 < m.math.sqrt x) →
        ∀ call ∈ (bottom_reflection m w de az depth).reinit,
          0 < dot (refined_normal m w de az time_water) call.ndirection) := by
  obtain ⟨hdot, hR⟩ := bottom_reflected_eq m w de az time_water
  have hgen : dot (refined_normal m w de az time_water) (bottom_reflected m w de az time_water)
      = dot (refined_normal m w de az time_water) (bottom_incident w de az time_water)
        * (1 - 2 * norm2 (refined_normal m w de az time_water)) := by
    rw [hR]
    simp only [dot, norm2]
    ring
  have hunit : norm2 (refined_normal m w de az time_water) = 1 →
      dot (refined_normal m w de az time_water) (bottom_reflected m w de az time_water)
        = -dot (refined_normal m w de az time_water) (bottom_incident w de az time_water)
      ∧ norm2 (bottom_reflected m w de az time_water)
        = norm2 (bottom_incident w de az time_water) := by
    intro hn
    constructor
    · rw [hgen, hn]
      ring
    · rw [hR]
      simp only [norm2, dot] at hn ⊢
      have e : ∀ a b c x y z : α, a * a + b * b + c * c = 1 →
          (x - 2 * (a * x + b * y + c * z) * a) * (x - 2 * (a * x + b * y + c * z) * a)
          + (y - 2 * (a * x + b * y + c * z) * b) * (y - 2 * (a * x + b * y + c * z) * b)
          + (z - 2 * (a * x + b * y + c * z) * c) * (z - 2 * (a * x + b * y + c * z) * c)
          = x * x + y * y + z * z := by
        intro a b c x y z habc
        have h4 : (x - 2 * (a * x + b * y + c * z) * a) * (x - 2 * (a * x + b * y + c * z) * a)
            + (y - 2 * (a * x + b * y + c * z) * b) * (y - 2 * (a * x + b * y + c * z) * b)
            + (z - 2 * (a * x + b * y + c * z) * c) * (z - 2 * (a * x + b * y + c * z) * c)
            = x * x + y * y + z * z
              + 4 * (a * x + b * y + c * z) ^ 2 * (a * a + b * b + c * c - 1) := by ring
        rw [h4, habc]
        ring
      exact e _ _ _ _ _ _ hn
  refine ⟨hgen, hunit, ?_⟩
  intro h htw hc hn hsqrt call hcall
  obtain ⟨hd, hre⟩ := bottom_reflection_reinit m w de az depth time_water h htw
  rw [hre, List.mem_singleton] at hcall
  subst hcall
  simp only
  rw [dot_div, (hunit hn).1]
  rw [hdot] at hd
  have hI : 0 < norm2 (bottom_incident w de az time_water) :=
    norm2_pos_of_dot_ne _ _ (ne_of_lt hd)
  have hRpos : 0 < norm2 (bottom_reflected m w de az time_water) := by
    rw [(hunit hn).2]
    exact hI
  exact div_pos (neg_pos.mpr hd) (mul_pos (hsqrt _ hRpos) hc)

/-- Witness of C25: off the flat sample bottom, whose normal (1, 0, 0) is a unit
    vector, the descending ray leaves with a positive radial component. -/
theorem reflected_ray_leaves_bottom_witness :
    (bottom_reflection sample_model descending_wave 0 0 1000).reinit
        = [⟨0, 0, 1, ⟨5010, 0, 0⟩, ⟨3/10, 2/5, 0⟩, 2⟩]
    ∧ 0 < dot (refined_normal sample_model descending_wave 0 0 1) ⟨3/10, 2/5, 0⟩ :=
  ⟨descending_reinit,
    (reflected_ray_leaves_bottom sample_model descending_wave 0 0 1000 1).2.2
      descending_returned descending_time_water
      (by norm_num [collision_location, descending_wave, sample_wave, uniform_front])
      (by norm_num [norm2, refined_normal, sample_model, flat_boundary])
      (by
        intro x hx
        show 0 < exact_sqrt x
        unfold exact_sqrt
        have h1 : 0 < x.num := Rat.num_pos.mpr hx
        have h2 : 0 < x.num.toNat := by omega
        have h3 : 0 < Nat.sqrt x.num.toNat := Nat.sqrt_pos.mpr h2
        have h4 : 0 < Nat.sqrt x.den := Nat.sqrt_pos.mpr x.den_pos
        positivity)
      ⟨0, 0, 1, ⟨5010, 0, 0⟩, ⟨3/10, 2/5, 0⟩, 2⟩
      (by rw [descending_reinit]; exact List.mem_singleton.mpr rfl)⟩

/-- C21: a successful `notifyUpperCollision` or `notifyLowerCollision` leaves
    every collection (surface, bottom, each `upper[k]`, each `lower[k]`) with
    its former contents as an initial segment of the new ones; and
    `convolve_eigenverbs` and the four `compute_..._energy` passes, with a
    contribution that writes the curve only, leave every collection unchanged. -/
theorem collections_append_only {β : Type} (em : eigenverb_model)
    (s s' : eigenverb_monostatic) (c : collision_info) (ID : Nat)
    (f : eigenverb → eigenverb → β → List ℚ → List ℚ) (b : reverb_boundaries β)
    (set : List eigenverb) (boundary : β) :
    (notifyUpperCollision em s c ID = .ok s' → collections_grow s s')
    ∧ (notifyLowerCollision em s c ID = .ok s' → collections_grow s s')
    ∧ collections (convolve_eigenverbs (curve_contribution f) s.max_time set boundary s)
        = collections s
    ∧ collections (compute_bottom_energy (curve_contribution f) b s s) = collections s
    ∧ collections (compute_surface_energy (curve_contribution f) b s s) = collections s
    ∧ collections (compute_upper_volume_energy (curve_contribution f) b s s) = collections s
    ∧ collections (compute_lower_volume_energy (curve_contribution f) b s s) = collections s := by
  have hc : ∀ u v (bd : β) (t : eigenverb_monostatic),
      collections (curve_contribution f u v bd t) = collections t := fun _ _ _ _ => rfl
  have hconv : ∀ (mt : ℚ) (l : List eigenverb) (bd : β) (t : eigenverb_monostatic),
      collections (convolve_eigenverbs (curve_contribution f) mt l bd t) = collections t :=
    fun mt l bd t => convolve_keeps collections _ hc mt l bd t
  refine ⟨?_, ?_, hconv _ _ _ _, hconv _ _ _ _, hconv _ _ _ _, ?_, ?_⟩
  · intro h
    unfold notifyUpperCollision at h
    simp only at h
    split at h
    · have e := Except.ok.inj h
      subst e
      exact ⟨⟨[em.create_eigenverb c], rfl⟩, ⟨[], List.append_nil _⟩,
        table_grows_refl _, table_grows_refl _⟩
    · cases hp : push_at s.upper (layer_index s ID) (em.create_eigenverb c) with
      | error e => simp [hp] at h
      | ok t =>
        simp only [hp] at h
        have e := Except.ok.inj h
        subst e
        exact ⟨⟨[], List.append_nil _⟩, ⟨[], List.append_nil _⟩,
          table_grows_push_at _ _ _ _ hp, table_grows_refl _⟩
  · intro h
    unfold notifyLowerCollision at h
    simp only at h
    split at h
    · have e := Except.ok.inj h
      subst e
      exact ⟨⟨[], List.append_nil _⟩, ⟨[em.create_eigenverb c], rfl⟩,
        table_grows_refl _, table_grows_refl _⟩
    · cases hp : push_at s.lower (layer_index s ID) (em.create_eigenverb c) with
      | error e => simp [hp] at h
      | ok t =>
        simp only [hp] at h
        have e := Except.ok.inj h
        subst e
        exact ⟨⟨[], List.append_nil _⟩, ⟨[], List.append_nil _⟩,
          table_grows_refl _, table_grows_push_at _ _ _ _ hp⟩
  · exact volume_pass_keeps collections _ (hconv s.max_time) _ _ _ _ _
  · exact volume_pass_keeps collections _ (hconv s.max_time) _ _ _ _ _

/-- Witness of C21: filing a collision with identity 9 in the sample
    accumulator makes its collections grow. -/
theorem collections_append_only_witness :
    collections_grow sample_monostatic
      { sample_monostatic with
        upper := [[sample_eigenverb_model.create_eigenverb sample_collision], []] } := by
  have h9 : layer_index sample_monostatic 9 = 0 := by
    norm_num [layer_index, usub, sample_monostatic]
  refine (collections_append_only sample_eigenverb_model sample_monostatic _ sample_collision 9
    (fun _ _ (_ : Unit) curve => curve) unit_boundaries [] ()).1 ?_
  simp only [notifyUpperCollision, push_at, h9]
  simp [sample_eigenverb_model, sample_monostatic]

/-- C27: for a query map (every identifier queried once), `find_pairs` returns
    exactly the keys `generate_hash_key(s, r)` with `s` in S and `r` in R, where S
    holds the identifiers queried with mode SOURCE that are in the source list
    and those queried with mode BOTH that are in both lists, and R those queried
    with mode RECEIVER that are in the receiver list and those queried with mode
    BOTH that are in both lists; an identifier queried with mode BOTH that is
    missing from either list is in neither S nor R. -/
theorem find_pairs_keys {κ : Type} [DecidableEq κ] (generate_hash_key : Int → Int → κ)
    (mgr : sensor_pair_manager κ) (sensors : sensor_query_map)
    (hmap : (sensors.map Prod.fst).Nodup) :
    (∀ key, key ∈ find_pairs generate_hash_key mgr sensors ↔
      ∃ s r, query_source mgr sensors s ∧ query_receiver mgr sensors r
        ∧ key = generate_hash_key s r)
    ∧ (∀ id, (id, xmitRcvModeType.BOTH) ∈ sensors →
        (id ∉ mgr.src_list ∨ id ∉ mgr.rcv_list) →
        ¬ query_source mgr sensors id ∧ ¬ query_receiver mgr sensors id) := by
  constructor
  · intro key
    unfold find_pairs
    simp only
    rw [mem_build_hash_keys]
    constructor
    · rintro ⟨s, hs, r, hr, hkey⟩
      rw [find_pairs_sources _ _ _ _ hmap (fun _ _ => Finset.not_mem_empty _)] at hs
      rw [find_pairs_receivers] at hr
      refine ⟨s, r, ?_, ?_, hkey⟩
      · rcases hs with h | h
        · exact absurd h (Finset.not_mem_empty _)
        · exact h
      · rcases hr with h | h
        · exact absurd h (Finset.not_mem_empty _)
        · exact h
    · rintro ⟨s, r, hs, hr, hkey⟩
      refine ⟨s, ?_, r, ?_, hkey⟩
      · rw [find_pairs_sources _ _ _ _ hmap (fun _ _ => Finset.not_mem_empty _)]
        exact Or.inr hs
      · rw [find_pairs_receivers]
        exact Or.inr hr
  · intro id hboth hmiss
    constructor
    · rintro (⟨h, _⟩ | ⟨_, hs, hr⟩)
      · exact absurd (query_mode_unique sensors hmap id _ _ h hboth) (by decide)
      · rcases hmiss with hm | hm
        · exact hm hs
        · exact hm hr
    · rintro (⟨h, _⟩ | ⟨_, hs, hr⟩)
      · exact absurd (query_mode_unique sensors hmap id _ _ h hboth) (by decide)
      · rcases hmiss with hm | hm
        · exact hm hs
        · exact hm hr

/-- Witness of C27: with source 5 and receivers 5 and 7 active, the query
    (5, BOTH), (7, RECEIVER), (9, SOURCE) yields the key of the pair (5, 7) and
    not the key of the pair (9, 7). -/
theorem find_pairs_keys_witness :
    ((5 : Int), (7 : Int)) ∈ find_pairs Prod.mk sample_manager
        [(5, xmitRcvModeType.BOTH), (7, xmitRcvModeType.RECEIVER), (9, xmitRcvModeType.SOURCE)]
    ∧ ((9 : Int), (7 : Int)) ∉ find_pairs Prod.mk sample_manager
        [(5, xmitRcvModeType.BOTH), (7, xmitRcvModeType.RECEIVER), (9, xmitRcvModeType.SOURCE)] := by
  have t := (find_pairs_keys Prod.mk sample_manager
    [(5, xmitRcvModeType.BOTH), (7, xmitRcvModeType.RECEIVER), (9, xmitRcvModeType.SOURCE)]
    (by decide)).1
  constructor
  · refine (t (5, 7)).mpr ⟨5, 7, ?_, ?_, rfl⟩
    · exact Or.inr ⟨by simp, by simp [sample_manager], by simp [sample_manager]⟩
    · exact Or.inl ⟨by simp, by simp [sample_manager]⟩
  · intro hmem
    obtain ⟨s, r, hs, _, hkey⟩ := (t (9, 7)).mp hmem
    have e : s = 9 := ((Prod.mk.injEq _ _ _ _).mp hkey).1.symm
    subst e
    rcases hs with ⟨_, h⟩ | ⟨_, h, _⟩
    · simp [sample_manager] at h
    · simp [sample_manager] at h

/-- C28, evaluated on the code: for a sensor with mode BOTH whose identifier 5
    is in the source list but not in the receiver list, `remove_sensor` returns
    false although the identifier was found in the source list, and the source
    list after the call no longer holds it. -/
theorem remove_sensor_both_overwrites_result :
    both_sensor.sensorID ∈ source_only_manager.src_list
    ∧ (remove_sensor Prod.mk (fun _ => none) source_only_manager both_sensor).1 = false
    ∧ (remove_sensor Prod.mk (fun _ => none) source_only_manager both_sensor).2.src_list = ∅
    ∧ (remove_sensor Prod.mk (fun _ => none) source_only_manager both_sensor).2.src_list
        ≠ source_only_manager.src_list := by
  have h1 : (remove_sensor Prod.mk (fun _ => none) source_only_manager both_sensor).1 = false := by
    simp [remove_sensor, both_sensor, source_only_manager, erase_count]
  have h2 : (remove_sensor Prod.mk (fun _ => none) source_only_manager both_sensor).2.src_list
      = ∅ := by
    simp [remove_sensor, both_sensor, source_only_manager, erase_count]
  refine ⟨by simp [both_sensor, source_only_manager], h1, h2, ?_⟩
  rw [h2]
  exact (Finset.singleton_ne_empty (5 : Int)).symm

end usml
